import Mathlib

/-!
Verification development for the apis-mcp repository.

The repository exposes OpenAPI-described HTTP APIs as callable tools.
We embed the data model and the operations of its three source files:

* src/swagger.ts : extractToolsFromSwagger, generateInputSchema,
  resolveReferences (the schema extractor);
* src/mcp.ts     : fetchTool (the request dispatcher; the same
  request-building logic is duplicated in the CallToolRequestSchema
  handler of src/index.ts);
* src/index.ts   : getTools (the memoized per-API-identifier tool cache).

JSON values are embedded as the inductive type Json below; JavaScript
objects become association lists of (key, value) pairs in insertion
order, with first-match lookup, which is extensionally the behaviour of
JavaScript objects (whose keys are unique).  JSON numbers are embedded
as integers: every concrete number appearing in the claims is integral
and no arithmetic is performed on them.
-/

set_option maxHeartbeats 1000000

/-- JSON values.  Objects are association lists in insertion order. -/
inductive Json where
  | null : Json
  | bool : Bool → Json
  | num : Int → Json
  | str : String → Json
  | arr : List Json → Json
  | obj : List (String × Json) → Json
deriving Repr

/-- First-match lookup of a key in an association list, the behaviour of
reading a property off a JavaScript object. -/
def jGetL : List (String × Json) → String → Option Json
  | [], _ => none
  | (k, v) :: rest, key => if k = key then some v else jGetL rest key

/-- Property read on a Json value: objects look the key up, every other
value has no properties. -/
def jGet : Json → String → Option Json
  | Json.obj kvs, key => jGetL kvs key
  | _, _ => none

/-- Replace the first binding of a key, or append a new binding: the
behaviour of a JavaScript property assignment on an object. -/
def setPropL (l : List (String × Json)) (key : String) (v : Json) :
    List (String × Json) :=
  match l with
  | [] => [(key, v)]
  | (k, w) :: rest =>
    if k = key then (key, v) :: rest else (k, w) :: setPropL rest key v

/-- Property assignment on a Json value.  On non-objects it is a no-op:
the source only assigns properties to values it has checked to be
objects, apart from corner cases (primitives, arrays) on which the
assignment is invisible to JSON serialization; no claim depends on
those corners. -/
def setProp : Json → String → Json → Json
  | Json.obj kvs, key, v => Json.obj (setPropL kvs key v)
  | j, _, _ => j

/-- JavaScript truthiness of a JSON value. -/
def truthy : Json → Bool
  | Json.null => false
  | Json.bool b => b
  | Json.num i => i ≠ 0
  | Json.str s => s ≠ ""
  | Json.arr _ => true
  | Json.obj _ => true

/-- Truthiness of a possibly missing property (undefined is falsy). -/
def truthyOpt : Option Json → Bool
  | none => false
  | some v => truthy v

/-- The entries a JavaScript for-in loop (or Object.entries) visits:
the key-value pairs of an object, nothing for other values. -/
def entriesOf : Json → List (String × Json)
  | Json.obj kvs => kvs
  | _ => []

/-- Whether a Json value is an object (and not null), the guard
`typeof x === "object" && x !== null` restricted to plain objects. -/
def isObj : Json → Bool
  | Json.obj _ => true
  | _ => false

mutual
/-- JavaScript String(value) coercion of a JSON value. -/
def jsToString : Json → String
  | Json.null => "null"
  | Json.bool true => "true"
  | Json.bool false => "false"
  | Json.num i => toString i
  | Json.str s => s
  | Json.arr xs => jsToStringList xs
  | Json.obj _ => "[object Object]"

/-- Array coercion: elements joined by commas. -/
def jsToStringList : List Json → String
  | [] => ""
  | [x] => jsToString x
  | x :: xs => jsToString x ++ "," ++ jsToStringList xs
end

mutual
/-- JSON serialization of a value.  Modelled from the spec: the body is
the JSON-serialized requestBody object (JSON.stringify); escaping of
special characters inside strings is elided, no claim serializes such
strings. -/
def stringifyJson : Json → String
  | Json.null => "null"
  | Json.bool true => "true"
  | Json.bool false => "false"
  | Json.num i => toString i
  | Json.str s => "\"" ++ s ++ "\""
  | Json.arr xs => "[" ++ stringifyArr xs ++ "]"
  | Json.obj kvs => "\x7b" ++ stringifyProps kvs ++ "\x7d"

/-- Serialization of array elements. -/
def stringifyArr : List Json → String
  | [] => ""
  | [x] => stringifyJson x
  | x :: xs => stringifyJson x ++ "," ++ stringifyArr xs

/-- Serialization of object properties. -/
def stringifyProps : List (String × Json) → String
  | [] => ""
  | [(k, v)] => "\"" ++ k ++ "\":" ++ stringifyJson v
  | (k, v) :: kvs => "\"" ++ k ++ "\":" ++ stringifyJson v ++ "," ++ stringifyProps kvs
end

example : stringifyJson (Json.obj []) = "{}" := rfl
example : jGet (Json.obj [("a", Json.num 1)]) "a" = some (Json.num 1) := rfl

/-!
Reference resolution (resolveReferences in src/swagger.ts).

The source function recurses without any cycle detection, so a circular
reference chain makes it diverge.  We embed it with an explicit fuel
parameter consumed at every recursive call: a result of none models a
computation that ran out of stack depth, and divergence of the source
corresponds to the embedded function returning none at every fuel.
-/

/-- Split a character list into the groups separated by a slash, the
behaviour of the JavaScript split method with separator "/". -/
def splitOnSlash : List Char → List (List Char)
  | [] => [[]]
  | c :: rest =>
    let groups := splitOnSlash rest
    if c = '/' then [] :: groups
    else
      match groups with
      | [] => [[c]]
      | g :: gs => (c :: g) :: gs

/-- Segments of a reference string: split on "/" and drop the first
element (the source shifts it off regardless of its content). -/
def refSegments (r : String) : List String :=
  ((splitOnSlash r.data).map (fun l => String.mk l)).drop 1

/-- Parse a character list as a decimal natural number, accepting only
digit characters. -/
def decDigits? : List Char → Option Nat
  | [] => none
  | l => l.foldlM (fun acc c =>
      if '0' ≤ c ∧ c ≤ '9' then some (acc * 10 + (c.toNat - '0'.toNat)) else none) 0

/-- Uppercase an ASCII string (the toUpperCase call on HTTP method
names). -/
def asciiUpper (s : String) : String :=
  String.mk (s.data.map (fun c =>
    if 'a' ≤ c ∧ c ≤ 'z' then Char.ofNat (c.toNat - 32) else c))

/-- The placeholder substituted for an unresolvable reference. -/
def refNotFound (r : String) : Json :=
  Json.obj [("type", Json.str "object"),
            ("description", Json.str ("Reference not found: " ++ r))]

/-- Walk the document through a list of segments, the navigation loop of
resolveReferences.  An object steps to the value of the segment key; an
array steps to the element at the segment when the segment is the
canonical decimal form of an index in range (the JavaScript in
operator on arrays); anything else fails. -/
def walkSegments (doc : Json) : List String → Option Json
  | [] => some doc
  | seg :: rest =>
    match doc with
    | Json.obj kvs =>
      match jGetL kvs seg with
      | some v => walkSegments v rest
      | none => none
    | Json.arr xs =>
      match decDigits? seg.data with
      | some i =>
        if h : i < xs.length then
          if toString i = seg then walkSegments (xs.get ⟨i, h⟩) rest else none
        else none
      | none => none
    | _ => none

/-- Map a fallible function over a list, failing when any element
fails. -/
def optionMapList (f : α → Option β) : List α → Option (List β)
  | [] => some []
  | x :: xs =>
    match f x with
    | none => none
    | some y =>
      match optionMapList f xs with
      | none => none
      | some ys => some (y :: ys)

/-- Resolve references in a fragment against the document, with fuel
consumed at every recursive call (resolveReferences of src/swagger.ts:
primitives are returned unchanged, arrays are mapped over, an object
with a string-valued $ref key is replaced by the value reached by
walking the document through the reference segments, recursing into the
substituted value, or by the not-found placeholder when the walk fails,
and any other object is rebuilt with its $schema keys dropped and its
values resolved recursively). -/
def resolveReferences : Nat → Json → Json → Option Json
  | 0, _, _ => none
  | fuel + 1, doc, v =>
    match v with
    | Json.obj kvs =>
      match jGetL kvs "$ref" with
      | some (Json.str r) =>
        match walkSegments doc (refSegments r) with
        | some t => resolveReferences fuel doc t
        | none => some (refNotFound r)
      | _ =>
        (optionMapList (fun p => (resolveReferences fuel doc p.2).map (fun x => (p.1, x)))
          (kvs.filter (fun p => p.1 ≠ "$schema"))).map Json.obj
    | Json.arr xs => (optionMapList (fun x => resolveReferences fuel doc x) xs).map Json.arr
    | v => some v

example :
    resolveReferences 3
      (Json.obj [("components", Json.obj [("schemas",
        Json.obj [("Foo", Json.obj [("type", Json.str "string")])])])])
      (Json.obj [("$ref", Json.str "#/components/schemas/Foo")]) =
      some (Json.obj [("type", Json.str "string")]) := rfl

example :
    resolveReferences 2 (Json.obj [])
      (Json.obj [("$ref", Json.str "#/components/schemas/Missing")]) =
      some (refNotFound "#/components/schemas/Missing") := rfl

/-!
Schema extraction (extractToolsFromSwagger and generateInputSchema in
src/swagger.ts).
-/

/-- Key presence test, the JavaScript in operator on an object. -/
def hasKeyJ (j : Json) (k : String) : Bool :=
  (jGet j k).isSome

/-- Values that satisfy the guard `x && typeof x === "object"`: plain
objects and arrays (JavaScript arrays have typeof object). -/
def jsObjLike : Json → Bool
  | Json.obj _ => true
  | Json.arr _ => true
  | _ => false

/-- Delete the $schema key of an object (no-op on other values). -/
def delSchemaKey : Json → Json
  | Json.obj kvs => Json.obj (kvs.filter (fun p => p.1 ≠ "$schema"))
  | v => v

/-- Read a property and keep it only when truthy, coerced to a string.
Used for the name, operationId, description and summary fallbacks; the
source assigns the raw value, which is a string in every well-typed
document, so the coercion only differs on untyped corners no claim
depends on. -/
def truthyStr (j : Option Json) : Option String :=
  match j with
  | some v => if truthy v then some (jsToString v) else none
  | none => none

mutual
/-- Modelled from the spec: the external library
openapi-schema-to-json-schema (not part of the repository) converts
OpenAPI-specific constructs to plain JSON-Schema form; the spec names
nullable as the example.  We model the conversion as the recursive
rewrite of a boolean-true nullable key with a string type into the
two-element type array, leaving everything else unchanged. -/
def convertNullable : Json → Json
  | Json.obj kvs =>
    let base := convertNullableProps kvs
    match jGetL kvs "nullable", jGetL kvs "type" with
    | some (Json.bool true), some (Json.str t) =>
      Json.obj (setPropL (base.filter (fun p => p.1 ≠ "nullable")) "type"
        (Json.arr [Json.str t, Json.str "null"]))
    | _, _ => Json.obj base
  | Json.arr xs => Json.arr (convertNullableArr xs)
  | v => v

/-- Conversion of object properties. -/
def convertNullableProps : List (String × Json) → List (String × Json)
  | [] => []
  | (k, v) :: kvs => (k, convertNullable v) :: convertNullableProps kvs

/-- Conversion of array elements. -/
def convertNullableArr : List Json → List Json
  | [] => []
  | x :: xs => convertNullable x :: convertNullableArr xs
end

/-- Modelled from the spec: the library stamps a $schema key onto object
results (the source deletes that key immediately after converting). -/
def convertOpenApiSchema (j : Json) : Json :=
  match convertNullable j with
  | Json.obj kvs =>
    Json.obj (setPropL kvs "$schema" (Json.str "http://json-schema.org/draft-04/schema#"))
  | v => v

/-- The flattened input schema of one operation: the properties mapping,
the required list (absent, not empty, when no field is required — except
for the default schema of an operation without parameters and request
body, which keeps an explicit empty list, as in the source), and the
anyOf/allOf/oneOf/not constraints copied onto the schema object. -/
structure InputSchema where
  properties : List (String × Json)
  required : Option (List String)
  extra : List (String × Json)
deriving Repr

/-- The default input schema of an operation with neither parameters nor
request body. -/
def defaultInputSchema : InputSchema :=
  { properties := [], required := some [], extra := [] }

/-- The schema of a parameter before resolution: an absent or falsy
schema becomes the empty object (the `|| {}` default). -/
def paramRawSchema (p : Json) : Json :=
  match jGet p "schema" with
  | some v => if truthy v then v else Json.obj []
  | none => Json.obj []

/-- The transport location stored for a parameter: the value of its in
field, defaulting to the string query when that is falsy or absent. -/
def paramLoc (p : Json) : Json :=
  match jGet p "in" with
  | some v => if truthy v then v else Json.str "query"
  | none => Json.str "query"

/-- The schema stored for a parameter: the resolved schema annotated
with paramType, and with the description copied in when truthy. -/
def paramTagged (p : Json) (resolved : Json) : Json :=
  let tagged := setProp resolved "paramType" (paramLoc p)
  match jGet p "description" with
  | some d => if truthy d then setProp tagged "description" d else tagged
  | none => tagged

/-- Process one declared parameter: resolve its schema, push its name
onto the required list when both the required flag and the name are
truthy, and store the tagged resolved schema under the name. -/
def processParam (fuel : Nat) (doc : Json)
    (st : List (String × Json) × List String) (p : Json) :
    Option (List (String × Json) × List String) :=
  (resolveReferences fuel doc (paramRawSchema p)).bind (fun resolved =>
    match truthyStr (jGet p "name") with
    | some n =>
      some (setPropL st.1 n (paramTagged p resolved),
            if truthyOpt (jGet p "required") then st.2 ++ [n] else st.2)
    | none => some st)

/-- Merge the required names of the body schema into the required list:
string entries not already present are appended. -/
def mergeRequired (req : List String) : List Json → List String
  | [] => req
  | Json.str r :: rest =>
    mergeRequired (if r ∈ req then req else req ++ [r]) rest
  | _ :: rest => mergeRequired req rest

/-- Splice the body properties into the root properties, tagging each
with paramType body — an assignment that is a no-op on non-object
property schemas, which the source guards with a typeof check. -/
def spliceBodyProps (props : List (String × Json)) (bodyProps : List (String × Json)) :
    List (String × Json) :=
  bodyProps.foldl (fun ps kv => setPropL ps kv.1 (setProp kv.2 "paramType" (Json.str "body")))
    props

/-- The anyOf/allOf/oneOf/not constraints present on the body schema,
copied onto the flattened schema object. -/
def bodyExtra (conv : Json) : List (String × Json) :=
  ["anyOf", "allOf", "oneOf", "not"].foldl
    (fun ex ct => if hasKeyJ conv ct then setPropL ex ct ((jGet conv ct).getD Json.null) else ex)
    []

/-- The splice condition: the schema's type is strictly the string
object and its properties value is truthy. -/
def isObjectWithProps (conv : Json) : Bool :=
  (match jGet conv "type" with
   | some (Json.str t) => t = "object"
   | _ => false) && truthyOpt (jGet conv "properties")

/-- Apply the converted, $schema-stripped body schema to the state:
splice for a type-object schema with truthy properties (merging its
required names), otherwise store the whole schema under the synthetic
field _body tagged with paramType body, pushing _body onto the required
list exactly when the request body is truthily marked required. -/
def applyBodySchema (rb : Json) (conv : Json)
    (st : List (String × Json) × List String) :
    List (String × Json) × List String × List (String × Json) :=
  if isObjectWithProps conv then
    (spliceBodyProps st.1 (entriesOf ((jGet conv "properties").getD Json.null)),
     (match jGet conv "required" with
      | some (Json.arr rs) => mergeRequired st.2 rs
      | _ => st.2),
     bodyExtra conv)
  else
    (setPropL st.1 "_body" (setProp conv "paramType" (Json.str "body")),
     (if truthyOpt (jGet rb "required") then st.2 ++ ["_body"] else st.2),
     [])

/-- Process the request body: pick the first content type only; when its
schema is truthy, resolve references, convert to JSON Schema form, and
apply it when the converted value is object-like (a non-object converted
value contributes nothing at all). -/
def processBody (fuel : Nat) (doc : Json) (op : Json)
    (st : List (String × Json) × List String) :
    Option (List (String × Json) × List String × List (String × Json)) :=
  match jGet op "requestBody" with
  | some rb =>
    if truthyOpt (jGet rb "content") then
      match entriesOf ((jGet rb "content").getD Json.null) with
      | [] => some (st.1, st.2, [])
      | (_, cval) :: _ =>
        match jGet cval "schema" with
        | some bs =>
          if truthy bs then
            (resolveReferences fuel doc bs).map (fun resolved =>
              let conv := convertOpenApiSchema resolved
              if jsObjLike conv then applyBodySchema rb (delSchemaKey conv) st
              else (st.1, st.2, []))
          else some (st.1, st.2, [])
        | none => some (st.1, st.2, [])
    else some (st.1, st.2, [])
  | none => some (st.1, st.2, [])

/-- The declared parameters the extraction folds over: the parameters
value when it is an array (the truthiness and Array.isArray guard),
nothing otherwise. -/
def paramsOf (op : Json) : List Json :=
  match jGet op "parameters" with
  | some (Json.arr xs) => xs
  | _ => []

/-- Generate the flattened input schema of an operation
(generateInputSchema in src/swagger.ts): fold the declared parameters,
process the request body, and drop the required list when it ended up
empty. -/
def generateInputSchema (fuel : Nat) (op : Json) (doc : Json) : Option InputSchema :=
  ((paramsOf op).foldlM (processParam fuel doc)
      (([], []) : List (String × Json) × List String)).bind (fun st =>
    (processBody fuel doc op st).map (fun out =>
      { properties := out.1,
        required := if out.2.1 = [] then none else some out.2.1,
        extra := out.2.2 }))

/-- A tool derived from one operation. -/
structure Tool where
  name : String
  description : String
  endpoint : String
  method : String
  inputSchema : InputSchema
deriving Repr

/-- The gateway base URL. The source reads process.env.API_GATEWAY_URL
and falls back to this fixed production URL; the environment is outside
the embedded program, so the model uses the fallback. -/
def API_GATEWAY_URL : String := "https://apis-hub.synergyshock.com/api"

/-- The HTTP methods recognised by the extractor. -/
def httpMethods : List String := ["get", "post", "put", "delete", "patch"]

/-- Synthesized tool name when operationId is absent: the method, an
underscore, and the path with every character outside a-z, A-Z, 0-9
replaced by an underscore. -/
def synthName (method : String) (path : String) : String :=
  method ++ "_" ++ String.mk (path.data.map (fun c =>
    if ('a' ≤ c ∧ c ≤ 'z') ∨ ('A' ≤ c ∧ c ≤ 'Z') ∨ ('0' ≤ c ∧ c ≤ '9') then c else '_'))

/-- Build the tool of one (path, method, operation) triple: name from
operationId or synthesized, description from description, summary or the
method-and-path fallback, endpoint from the gateway base, the API
identifier and the verbatim path template, uppercased method, and the
generated input schema (the default one when the operation has neither
truthy parameters nor truthy requestBody). -/
def mkTool (fuel : Nat) (apiId : String) (doc : Json)
    (path : String) (method : String) (opVal : Json) : Option Tool :=
  (if truthyOpt (jGet opVal "parameters") || truthyOpt (jGet opVal "requestBody") then
      generateInputSchema fuel opVal doc
    else pure defaultInputSchema).map
    (fun inputSchema =>
      { name := (truthyStr (jGet opVal "operationId")).getD (synthName method path),
        description := (truthyStr (jGet opVal "description")).getD
          ((truthyStr (jGet opVal "summary")).getD (asciiUpper method ++ " " ++ path)),
        endpoint := API_GATEWAY_URL ++ "/use/" ++ apiId ++ "/" ++ path,
        method := asciiUpper method,
        inputSchema := inputSchema })

/-- The path entries the extraction loop iterates: the entries of the
paths value, or nothing when paths is absent or falsy (the `|| {}`
default). -/
def pathsEntries (doc : Json) : List (String × Json) :=
  match jGet doc "paths" with
  | some v => if truthy v then entriesOf v else []
  | none => []

/-- Extract the tool list of a document (extractToolsFromSwagger in
src/swagger.ts): iterate the entries of paths, iterate the keys of each
path item, and push one tool for every key among the five HTTP methods
whose operation value is truthy (the source skips falsy operation
values). -/
def extractToolsFromSwagger (fuel : Nat) (apiId : String) (doc : Json) :
    Option (List Tool) :=
  (pathsEntries doc).foldlM (fun tools pe =>
    (entriesOf pe.2).foldlM (fun tools me =>
      if me.1 ∈ httpMethods then
        if truthy me.2 then
          (mkTool fuel apiId doc pe.1 me.1 me.2).map (fun t => tools ++ [t])
        else pure tools
      else pure tools) tools) []

/-!
Request dispatch (fetchTool in src/mcp.ts; the identical
request-building logic is duplicated inline in the CallToolRequestSchema
handler of src/index.ts).
-/

/-- Whether the first list is a prefix of the second. -/
def lPre : List Char → List Char → Bool
  | [], _ => true
  | _ :: _, [] => false
  | p :: ps, x :: xs => p = x && lPre ps xs

/-- Replace the first occurrence of a pattern in a character list, the
behaviour of the JavaScript replace method with a string pattern; a list
without an occurrence is returned unchanged. -/
def replaceFirstL (pat repl : List Char) : List Char → List Char
  | [] => if lPre pat [] then repl else []
  | c :: cs =>
    if lPre pat (c :: cs) then repl ++ (c :: cs).drop pat.length
    else c :: replaceFirstL pat repl cs

/-- Replace the first occurrence of a pattern in a string. -/
def replaceFirst (s pat repl : String) : String :=
  String.mk (replaceFirstL pat.data repl.data s.data)

/-- Percent-encode the brace characters of a character list as %7B and
%7D. -/
def encodeBracesL : List Char → List Char
  | [] => []
  | c :: cs =>
    (if c = '{' then ['%', '7', 'B']
     else if c = '}' then ['%', '7', 'D']
     else [c]) ++ encodeBracesL cs

/-- The origin part of the gateway base URL. -/
def gatewayOrigin : String := "https://apis-hub.synergyshock.com"

/-- The mutable URL state the dispatcher manipulates: the pathname and
the appended query parameters. -/
structure UrlState where
  pathname : String
  search : List (String × String)
deriving Repr

/-- Modelled from the spec: the WHATWG URL constructor applied to the
tool endpoint (new URL in the source, external to the repository).  The
endpoint is an absolute URL on the fixed gateway origin without query or
fragment; its pathname is everything after the origin, with brace
characters percent-encoded — the encoding the spec calls the encoded
brace placeholders — and the query starts empty.  Percent-encoding of
characters other than braces is elided; no claim uses such characters. -/
def parseUrl (endpoint : String) : UrlState :=
  { pathname := String.mk (encodeBracesL (endpoint.data.drop gatewayOrigin.data.length)),
    search := [] }

/-- The outgoing request the dispatcher hands to fetch: final URL state,
HTTP method, and the optional serialized JSON body. -/
structure RequestOut where
  url : UrlState
  method : String
  body : Option String
deriving Repr

/-- The effective paramType of a field schema: the paramType property
when truthy, the string query otherwise (the `|| "query"` default). -/
def effParamType (paramSchema : Json) : Json :=
  match jGet paramSchema "paramType" with
  | some v => if truthy v then v else Json.str "query"
  | none => Json.str "query"

/-- Membership of a name in the optional required list: an absent list
never matches (the truthiness guard on inputSchema.required). -/
def inRequired (requiredList : Option (List String)) (n : String) : Bool :=
  match requiredList with
  | some req => req.contains n
  | none => false

/-- Dispatch a supplied argument on its effective paramType: path
substitutes the encoded placeholder in the pathname by the string form
of the value, query appends a string-coerced query parameter, body
stores the raw value in the body object, and any other paramType is
ignored. -/
def dispatchValue (pName : String) (value : Json) (pt : Json)
    (st : UrlState × List (String × Json)) : UrlState × List (String × Json) :=
  match pt with
  | Json.str s =>
    if s = "path" then
      ({ st.1 with
         pathname := replaceFirst st.1.pathname ("%7B" ++ pName ++ "%7D") (jsToString value) },
       st.2)
    else if s = "query" then
      ({ st.1 with search := st.1.search ++ [(pName, jsToString value)] }, st.2)
    else if s = "body" then
      (st.1, setPropL st.2 pName value)
    else st
  | _ => st

/-- One step of the argument-processing loop: a supplied argument is
dispatched on its effective paramType; an absent argument raises the
missing-required error when the name is in the required list and is
skipped otherwise. -/
def dispatchStep (requiredList : Option (List String))
    (args : List (String × Json))
    (st : UrlState × List (String × Json)) (pv : String × Json) :
    Except String (UrlState × List (String × Json)) :=
  match jGetL args pv.1 with
  | none =>
    if inRequired requiredList pv.1 then
      Except.error ("Missing required argument: " ++ pv.1)
    else pure st
  | some value => pure (dispatchValue pv.1 value (effParamType pv.2) st)

/-- Build the outgoing request of one tool invocation (fetchTool in
src/mcp.ts up to the network call): parse the endpoint, process every
schema property against the supplied arguments, and attach the
serialized body object only when the method is neither GET nor
DELETE. -/
def buildRequest (tool : Tool) (args : List (String × Json)) :
    Except String RequestOut := do
  let st ← tool.inputSchema.properties.foldlM
    (dispatchStep tool.inputSchema.required args) (parseUrl tool.endpoint, [])
  pure { url := st.1,
         method := tool.method,
         body := if tool.method ≠ "GET" ∧ tool.method ≠ "DELETE"
                 then some (stringifyJson (Json.obj st.2))
                 else none }

/-!
The per-API-identifier tool-list cache (getTools in src/index.ts).

Modelled from the spec: getTools wraps the fetch-and-extract function in
memo of the radash library (not part of the repository) with an
infinite ttl.  Per the spec, the memoized function stores the in-flight
computation handle under the key synchronously on first call, so
concurrent callers for the same uncached identifier share the single
in-flight fetch-and-extract, and entries are never removed or replaced.
The model counts upstream fetches and hands out handles identifying the
shared computation.
-/

/-- Lookup of a cached handle. -/
def lookupHandle : List (String × Nat) → String → Option Nat
  | [], _ => none
  | (k, h) :: rest, key => if k = key then some h else lookupHandle rest key

/-- The cache state: the key-to-handle mapping, the next fresh handle,
and the number of upstream document fetches issued so far. -/
structure CacheState where
  cache : List (String × Nat)
  nextHandle : Nat
  fetchCount : Nat
deriving Repr

/-- Modelled from the spec: one call of the memoized getTools.  A cached
key returns its stored handle without fetching; an uncached key issues
one upstream fetch, stores a fresh handle for the in-flight computation,
and returns it. -/
def getToolsCall (s : CacheState) (apiId : String) : CacheState × Nat :=
  match lookupHandle s.cache apiId with
  | some h => (s, h)
  | none =>
    ({ cache := s.cache ++ [(apiId, s.nextHandle)],
       nextHandle := s.nextHandle + 1,
       fetchCount := s.fetchCount + 1 }, s.nextHandle)

/-!
Helper lemmas.
-/

theorem lookupHandle_append_self (c : List (String × Nat)) (key : String) (h : Nat)
    (hnone : lookupHandle c key = none) :
    lookupHandle (c ++ [(key, h)]) key = some h := by
  induction c with
  | nil => simp [lookupHandle]
  | cons p rest ih =>
    obtain ⟨k, v⟩ := p
    by_cases hk : k = key
    · simp [lookupHandle, hk] at hnone
    · simp only [List.cons_append, lookupHandle, hk, if_neg hk] at hnone ⊢
      exact ih hnone

theorem lookupHandle_append_of_some (c l : List (String × Nat)) (key : String) (h : Nat)
    (hsome : lookupHandle c key = some h) :
    lookupHandle (c ++ l) key = some h := by
  induction c with
  | nil => simp [lookupHandle] at hsome
  | cons p rest ih =>
    obtain ⟨k, v⟩ := p
    by_cases hk : k = key
    · subst hk
      simp_all [lookupHandle]
    · simp only [List.cons_append, lookupHandle, hk, if_neg hk] at hsome ⊢
      exact ih hsome

/-!
Claim C9.
-/

/-- C9: the per-identifier tool-list cache computes its value at most
once: a second request for the same identifier issued while the first
is the only previous one (two concurrent first-time requests, the
second call observing the state left by the first, both before any
resolution) results in exactly one upstream fetch, both callers
receive the same in-flight computation handle, and no cached entry is
ever invalidated or mutated. -/
theorem getTools_cache_single_flight (s : CacheState) (apiId : String)
    (hmiss : lookupHandle s.cache apiId = none) :
    (getToolsCall (getToolsCall s apiId).1 apiId).1.fetchCount = s.fetchCount + 1 ∧
    (getToolsCall (getToolsCall s apiId).1 apiId).2 = (getToolsCall s apiId).2 ∧
    (∀ k h, lookupHandle s.cache k = some h →
      lookupHandle (getToolsCall (getToolsCall s apiId).1 apiId).1.cache k = some h) := by
  have hsecond :
      lookupHandle (s.cache ++ [(apiId, s.nextHandle)]) apiId = some s.nextHandle :=
    lookupHandle_append_self s.cache apiId s.nextHandle hmiss
  refine ⟨?_, ?_, ?_⟩
  · simp [getToolsCall, hmiss, hsecond]
  · simp [getToolsCall, hmiss, hsecond]
  · intro k h hk
    simp only [getToolsCall, hmiss, hsecond]
    exact lookupHandle_append_of_some s.cache [(apiId, s.nextHandle)] k h hk

/-- Witness for C9 at the empty cache and the star-wars-api key. -/
theorem getTools_cache_single_flight_witness :
    (getToolsCall (getToolsCall ⟨[], 0, 0⟩ "star-wars-api").1 "star-wars-api").1.fetchCount = 0 + 1 ∧
    (getToolsCall (getToolsCall ⟨[], 0, 0⟩ "star-wars-api").1 "star-wars-api").2 =
      (getToolsCall ⟨[], 0, 0⟩ "star-wars-api").2 :=
  ⟨(getTools_cache_single_flight ⟨[], 0, 0⟩ "star-wars-api" rfl).1,
   (getTools_cache_single_flight ⟨[], 0, 0⟩ "star-wars-api" rfl).2.1⟩

/-!
Claim C4.
-/

/-- The document of the reference round-trip example: Foo is a string
schema under components.schemas. -/
def docC4 : Json :=
  Json.obj [("components", Json.obj [("schemas",
    Json.obj [("Foo", Json.obj [("type", Json.str "string")])])])]

/-- C4: resolveReferences replaces any object containing a string $ref
by the value reached by walking the document through the reference
segments — for a reference of the hash-slash form these are exactly the
path segments after the hash — recursing into the substituted value,
and substitutes the not-found placeholder object when the walk fails
instead of failing extraction; in particular the Foo round-trip of the
spec resolves to the string schema and the missing reference resolves to
the placeholder carrying the original reference text. -/
theorem resolveReferences_spec :
    (∀ (doc : Json) (kvs : List (String × Json)) (r : String) (fuel : Nat),
      jGetL kvs "$ref" = some (Json.str r) →
      resolveReferences (fuel + 1) doc (Json.obj kvs) =
        (match walkSegments doc (refSegments r) with
         | some t => resolveReferences fuel doc t
         | none => some (refNotFound r))) ∧
    refSegments "#/components/schemas/Foo" = ["components", "schemas", "Foo"] ∧
    resolveReferences 3 docC4 (Json.obj [("$ref", Json.str "#/components/schemas/Foo")]) =
      some (Json.obj [("type", Json.str "string")]) ∧
    resolveReferences 2 docC4 (Json.obj [("$ref", Json.str "#/components/schemas/Missing")]) =
      some (Json.obj [("type", Json.str "object"),
        ("description", Json.str "Reference not found: #/components/schemas/Missing")]) := by
  refine ⟨?_, rfl, rfl, rfl⟩
  intro doc kvs r fuel h
  simp only [resolveReferences, h]

/-- Witness for C4: the universal replacement rule applied at the Foo
round-trip input reduces the resolution to the resolution of the
referenced schema. -/
theorem resolveReferences_spec_witness :
    resolveReferences 3 docC4 (Json.obj [("$ref", Json.str "#/components/schemas/Foo")]) =
      resolveReferences 2 docC4 (Json.obj [("type", Json.str "string")]) := by
  rw [resolveReferences_spec.1 docC4 [("$ref", Json.str "#/components/schemas/Foo")]
    "#/components/schemas/Foo" 2 rfl]
  rfl

/-!
Extraction lemmas: the nested extraction loop is the fallible map of
mkTool over the in-order list of (path, method, operation) triples with
recognised method and truthy operation value.
-/

/-- The (path, method, operation) triples the extraction loop visits, in
visit order. -/
def opTriples (doc : Json) : List (String × String × Json) :=
  ((pathsEntries doc).map (fun pe =>
    ((entriesOf pe.2).filter (fun me => decide (me.1 ∈ httpMethods) && truthy me.2)).map
      (fun me => (pe.1, me.1, me.2)))).flatten

theorem optionMapList_append (f : α → Option β) (l₁ l₂ : List α) :
    optionMapList f (l₁ ++ l₂) =
      (optionMapList f l₁).bind (fun ys₁ =>
        (optionMapList f l₂).map (fun ys₂ => ys₁ ++ ys₂)) := by
  induction l₁ with
  | nil =>
    simp only [List.nil_append]
    cases optionMapList f l₂ with
    | none => rfl
    | some ys => simp [optionMapList]
  | cons x xs ih =>
    cases hf : f x with
    | none => simp [List.cons_append, optionMapList, hf]
    | some y =>
      cases hxs : optionMapList f xs with
      | none =>
        have h2 := ih
        rw [hxs] at h2
        simp only [Option.none_bind] at h2
        simp [List.cons_append, optionMapList, hf, h2, hxs]
      | some ys =>
        have h2 := ih
        rw [hxs] at h2
        simp only [Option.some_bind] at h2
        cases hl : optionMapList f l₂ with
        | none =>
          rw [hl] at h2
          simp only [Option.map_none'] at h2
          simp [List.cons_append, optionMapList, hf, h2, hxs, hl]
        | some zs =>
          rw [hl] at h2
          simp only [Option.map_some'] at h2
          simp [List.cons_append, optionMapList, hf, h2, hxs, hl]

theorem optionMapList_length (f : α → Option β) (l : List α) :
    ∀ ys, optionMapList f l = some ys → ys.length = l.length := by
  induction l with
  | nil => intro ys h; cases h; rfl
  | cons x xs ih =>
    intro ys h
    unfold optionMapList at h
    cases hf : f x with
    | none => rw [hf] at h; cases h
    | some y =>
      rw [hf] at h
      cases hxs : optionMapList f xs with
      | none => rw [hxs] at h; cases h
      | some zs =>
        rw [hxs] at h
        cases h
        simp [ih zs hxs]

theorem optionMapList_mem (f : α → Option β) (l : List α) :
    ∀ ys, optionMapList f l = some ys → ∀ y ∈ ys, ∃ x ∈ l, f x = some y := by
  induction l with
  | nil =>
    intro ys h y hy
    cases h
    simp at hy
  | cons x xs ih =>
    intro ys h y hy
    unfold optionMapList at h
    cases hf : f x with
    | none => rw [hf] at h; cases h
    | some z =>
      rw [hf] at h
      cases hxs : optionMapList f xs with
      | none => rw [hxs] at h; cases h
      | some zs =>
        rw [hxs] at h
        cases h
        rcases List.mem_cons.mp hy with hy1 | hy2
        · exact ⟨x, List.mem_cons_self x xs, by rw [hf, hy1]⟩
        · obtain ⟨w, hw, hfw⟩ := ih zs hxs y hy2
          exact ⟨w, List.mem_cons_of_mem x hw, hfw⟩

theorem optionMapList_map_comp (f : β → Option γ) (g : α → β) (l : List α) :
    optionMapList f (l.map g) = optionMapList (fun x => f (g x)) l := by
  induction l with
  | nil => rfl
  | cons x xs ih => simp only [List.map_cons, optionMapList, ih]

/-- An append-accumulating fallible fold is the fallible map appended to
the accumulator. -/
theorem foldMapAppend (f : α → Option β) (l : List α) :
    ∀ acc : List β,
      (l.foldlM (fun ys x => (f x).map (fun y => ys ++ [y])) acc : Option (List β)) =
        (optionMapList f l).map (fun ys => acc ++ ys) := by
  induction l with
  | nil =>
    intro acc
    rw [List.foldlM_nil]
    simp [optionMapList]
  | cons x xs ih =>
    intro acc
    rw [List.foldlM_cons]
    cases hf : f x with
    | none => simp [optionMapList, hf]
    | some y =>
      simp only [optionMapList, hf, Option.map_some']
      show (List.foldlM (fun ys x => (f x).map (fun y => ys ++ [y])) (acc ++ [y]) xs :
        Option (List β)) = _
      rw [ih (acc ++ [y])]
      cases optionMapList f xs with
      | none => rfl
      | some ys => simp

/-- The inner method loop equals the fallible map of mkTool over the
filtered method entries, appended to the accumulator. -/
theorem innerFold_eq (fuel : Nat) (apiId : String) (doc : Json) (path : String)
    (mes : List (String × Json)) :
    ∀ acc : List Tool,
      (mes.foldlM (fun tools me =>
        if me.1 ∈ httpMethods then
          if truthy me.2 then
            (mkTool fuel apiId doc path me.1 me.2).map (fun t => tools ++ [t])
          else pure tools
        else pure tools) acc : Option (List Tool)) =
      (optionMapList (fun me => mkTool fuel apiId doc path me.1 me.2)
        (mes.filter (fun me => decide (me.1 ∈ httpMethods) && truthy me.2))).map
          (fun ts => acc ++ ts) := by
  induction mes with
  | nil =>
    intro acc
    rw [List.foldlM_nil]
    simp [optionMapList]
  | cons me rest ih =>
    intro acc
    rw [List.foldlM_cons]
    by_cases hm : me.1 ∈ httpMethods
    · cases ht : truthy me.2 with
      | true =>
        simp only [hm, if_pos, ht, if_true, List.filter_cons, decide_eq_true hm,
          Bool.true_and, optionMapList]
        cases hmk : mkTool fuel apiId doc path me.1 me.2 with
        | none => simp
        | some t =>
          simp only [Option.map_some']
          show (List.foldlM _ (acc ++ [t]) rest : Option (List Tool)) = _
          rw [ih (acc ++ [t])]
          cases optionMapList (fun me => mkTool fuel apiId doc path me.1 me.2)
              (rest.filter (fun me => decide (me.1 ∈ httpMethods) && truthy me.2)) with
          | none => rfl
          | some ts => simp
      | false =>
        simp only [hm, if_pos, ht, if_false, List.filter_cons, decide_eq_true hm,
          Bool.true_and, Bool.false_eq_true]
        show (List.foldlM _ acc rest : Option (List Tool)) = _
        exact ih acc
    · simp only [hm, if_neg, if_false, List.filter_cons, decide_eq_false hm,
        Bool.false_and, Bool.false_eq_true]
      show (List.foldlM _ acc rest : Option (List Tool)) = _
      exact ih acc

/-- Pointwise-equal step functions give equal fallible folds. -/
theorem foldlM_fun_congr (f g : β → α → Option β) (l : List α)
    (h : ∀ b a, f b a = g b a) :
    ∀ init, (l.foldlM f init : Option β) = l.foldlM g init := by
  induction l with
  | nil => intro init; rfl
  | cons x xs ih =>
    intro init
    rw [List.foldlM_cons, List.foldlM_cons, h]
    cases g init x with
    | none => rfl
    | some b => exact ih b

/-- A fallible fold over a mapped list is the fold of the composite
step. -/
theorem foldlM_map (g : α → γ) (f : β → γ → Option β) (l : List α) :
    ∀ init, ((l.map g).foldlM f init : Option β) =
      l.foldlM (fun b a => f b (g a)) init := by
  induction l with
  | nil => intro init; rfl
  | cons x xs ih =>
    intro init
    rw [List.map_cons, List.foldlM_cons, List.foldlM_cons]
    cases f init (g x) with
    | none => rfl
    | some b => exact ih b

/-- Folding segment-wise fallible maps concatenates to the fallible map
of the joined list. -/
theorem foldJoin (F : γ → Option β) (parts : List (List γ)) :
    ∀ acc : List β,
      (parts.foldlM (fun ys part => (optionMapList F part).map (fun zs => ys ++ zs)) acc :
        Option (List β)) =
      (optionMapList F parts.flatten).map (fun zs => acc ++ zs) := by
  induction parts with
  | nil =>
    intro acc
    rw [List.foldlM_nil]
    simp [optionMapList]
  | cons part rest ih =>
    intro acc
    rw [List.foldlM_cons, List.flatten_cons, optionMapList_append]
    cases hp : optionMapList F part with
    | none => rfl
    | some zs =>
      simp only [Option.map_some']
      show (List.foldlM _ (acc ++ zs) rest : Option (List β)) = _
      rw [ih (acc ++ zs)]
      cases optionMapList F rest.flatten with
      | none => rfl
      | some ws => simp

/-- The whole extraction is the fallible map of mkTool over the triple
list. -/
theorem extract_characterization (fuel : Nat) (apiId : String) (doc : Json) :
    extractToolsFromSwagger fuel apiId doc =
      optionMapList (fun tr => mkTool fuel apiId doc tr.1 tr.2.1 tr.2.2) (opTriples doc) := by
  unfold extractToolsFromSwagger opTriples
  have hstep : ∀ (tools : List Tool) (pe : String × Json),
      ((entriesOf pe.2).foldlM (fun tools me =>
        if me.1 ∈ httpMethods then
          if truthy me.2 then
            (mkTool fuel apiId doc pe.1 me.1 me.2).map (fun t => tools ++ [t])
          else pure tools
        else pure tools) tools : Option (List Tool)) =
      (optionMapList (fun tr => mkTool fuel apiId doc tr.1 tr.2.1 tr.2.2)
        (((entriesOf pe.2).filter (fun me => decide (me.1 ∈ httpMethods) && truthy me.2)).map
          (fun me => (pe.1, me.1, me.2)))).map (fun zs => tools ++ zs) := by
    intro tools pe
    rw [innerFold_eq, optionMapList_map_comp]
  rw [foldlM_fun_congr _
    (fun tools pe =>
      (optionMapList (fun tr => mkTool fuel apiId doc tr.1 tr.2.1 tr.2.2)
        (((entriesOf pe.2).filter (fun me => decide (me.1 ∈ httpMethods) && truthy me.2)).map
          (fun me => (pe.1, me.1, me.2)))).map (fun zs => tools ++ zs))
    (pathsEntries doc) hstep]
  rw [← foldlM_map (fun pe =>
      ((entriesOf pe.2).filter (fun me => decide (me.1 ∈ httpMethods) && truthy me.2)).map
        (fun me => (pe.1, me.1, me.2)))
    (fun ys part =>
      (optionMapList (fun tr => mkTool fuel apiId doc tr.1 tr.2.1 tr.2.2) part).map
        (fun zs => ys ++ zs))
    (pathsEntries doc)]
  rw [foldJoin]
  cases optionMapList (fun tr => mkTool fuel apiId doc tr.1 tr.2.1 tr.2.2)
      ((pathsEntries doc).map (fun pe =>
        ((entriesOf pe.2).filter (fun me => decide (me.1 ∈ httpMethods) && truthy me.2)).map
          (fun me => (pe.1, me.1, me.2)))).flatten with
  | none => rfl
  | some ts => simp

/-- A successfully built tool has the endpoint, method, name and
description assembled by mkTool from its triple, and an input schema
that is the generated one (or the default one when the operation has
neither truthy parameters nor truthy requestBody). -/
theorem mkTool_some_elim (fuel : Nat) (apiId : String) (doc : Json)
    (path method : String) (opVal : Json) (t : Tool)
    (h : mkTool fuel apiId doc path method opVal = some t) :
    ∃ s, (if truthyOpt (jGet opVal "parameters") || truthyOpt (jGet opVal "requestBody") then
            generateInputSchema fuel opVal doc
          else pure defaultInputSchema) = some s ∧
      t = { name := (truthyStr (jGet opVal "operationId")).getD (synthName method path),
            description := (truthyStr (jGet opVal "description")).getD
              ((truthyStr (jGet opVal "summary")).getD (asciiUpper method ++ " " ++ path)),
            endpoint := API_GATEWAY_URL ++ "/use/" ++ apiId ++ "/" ++ path,
            method := asciiUpper method,
            inputSchema := s } := by
  unfold mkTool at h
  cases hs : (if truthyOpt (jGet opVal "parameters") || truthyOpt (jGet opVal "requestBody") then
      generateInputSchema fuel opVal doc
    else pure defaultInputSchema) with
  | none => rw [hs] at h; cases h
  | some s =>
    rw [hs] at h
    simp only [Option.map_some', Option.some.injEq] at h
    exact ⟨s, rfl, h.symm⟩

/-!
Claim C1 (corrected).
-/

/-- The number of (path, method) pairs the claim counts, amended by the
truthiness condition: for every path entry, the number of its keys among
the five HTTP methods whose operation value is truthy. -/
def countOpPairs (doc : Json) : Nat :=
  ((pathsEntries doc).map (fun pe =>
    ((entriesOf pe.2).filter (fun me => decide (me.1 ∈ httpMethods) && truthy me.2)).length)).sum

/-- A document with a present (path, method) pair whose operation value
is null. -/
def docC1 : Json :=
  Json.obj [("paths", Json.obj [("/a", Json.obj [("get", Json.null)])])]

/-- Counterexample to C1 as stated: the pair of path /a and method get
is present in the paths of docC1 — get is a recognised method key of the
path entry — yet extraction produces no tool at all, because the source
skips falsy operation values. -/
theorem extract_one_tool_per_pair_counterexample :
    ("get" ∈ httpMethods) ∧
    jGet ((jGet docC1 "paths").getD Json.null) "/a" = some (Json.obj [("get", Json.null)]) ∧
    extractToolsFromSwagger 0 "x" docC1 = some [] :=
  ⟨by decide, rfl, rfl⟩

/-- C1 amended: whenever extraction succeeds it produces exactly one
tool for each (path, method) pair present in the paths of the document
whose method is among get, post, put, delete, patch and whose operation
value is truthy (the source skips null and other falsy operation
values), and every produced tool endpoint starts with the gateway base
followed by the use segment, the API identifier and a slash. -/
theorem extract_one_tool_per_pair_amended (fuel : Nat) (apiId : String) (doc : Json)
    (T : List Tool) (h : extractToolsFromSwagger fuel apiId doc = some T) :
    T.length = countOpPairs doc ∧
    ∀ t ∈ T, ∃ suffix, t.endpoint = API_GATEWAY_URL ++ "/use/" ++ apiId ++ "/" ++ suffix := by
  rw [extract_characterization] at h
  constructor
  · rw [optionMapList_length _ _ T h]
    unfold opTriples countOpPairs
    rw [List.length_flatten]
    simp only [List.map_map, Function.comp_def, List.length_map]
  · intro t ht
    obtain ⟨tr, _, htr⟩ := optionMapList_mem _ _ T h t ht
    obtain ⟨s, _, hts⟩ := mkTool_some_elim fuel apiId doc tr.1 tr.2.1 tr.2.2 t htr
    exact ⟨tr.1, by rw [hts]⟩

/-- A document with one path carrying one get operation without
parameters or request body. -/
def docC1w : Json :=
  Json.obj [("paths", Json.obj [("/a", Json.obj [("get", Json.obj [])])])]

/-- Witness for the amended C1 at docC1w: the extracted list has exactly
countOpPairs docC1w elements and its tool keeps the gateway-base
prefix. -/
theorem extract_one_tool_per_pair_amended_witness :
    [({ name := "get__a", description := "GET /a",
        endpoint := API_GATEWAY_URL ++ "/use/x//a", method := "GET",
        inputSchema := defaultInputSchema } : Tool)].length = countOpPairs docC1w ∧
    (∃ suffix,
      ({ name := "get__a", description := "GET /a",
         endpoint := API_GATEWAY_URL ++ "/use/x//a", method := "GET",
         inputSchema := defaultInputSchema } : Tool).endpoint =
        API_GATEWAY_URL ++ "/use/" ++ "x" ++ "/" ++ suffix) :=
  ⟨(extract_one_tool_per_pair_amended 0 "x" docC1w _ rfl).1,
   (extract_one_tool_per_pair_amended 0 "x" docC1w _ rfl).2 _
     (List.mem_singleton.mpr rfl)⟩

/-- A successful buildRequest run decomposes into a successful
argument-processing fold and the final request assembly. -/
theorem buildRequest_ok_elim (tool : Tool) (args : List (String × Json)) (r : RequestOut)
    (hr : buildRequest tool args = Except.ok r) :
    ∃ st, tool.inputSchema.properties.foldlM (dispatchStep tool.inputSchema.required args)
            (parseUrl tool.endpoint, ([] : List (String × Json))) = Except.ok st ∧
      r = { url := st.1, method := tool.method,
            body := if tool.method ≠ "GET" ∧ tool.method ≠ "DELETE"
                    then some (stringifyJson (Json.obj st.2)) else none } := by
  unfold buildRequest at hr
  cases hfold : tool.inputSchema.properties.foldlM
      (dispatchStep tool.inputSchema.required args)
      (parseUrl tool.endpoint, ([] : List (String × Json))) with
  | error e => rw [hfold] at hr; simp [Bind.bind, Except.bind] at hr
  | ok st =>
    rw [hfold] at hr
    simp only [Bind.bind, Except.bind, pure, Except.pure, Except.ok.injEq] at hr
    exact ⟨st, rfl, hr.symm⟩

/-- Dispatching a value whose effective paramType is not body leaves
the collected body object unchanged. -/
theorem dispatchValue_body_eq (pName : String) (value pt : Json)
    (st : UrlState × List (String × Json)) (hne : pt ≠ Json.str "body") :
    (dispatchValue pName value pt st).2 = st.2 := by
  cases pt with
  | str s =>
    by_cases hp : s = "path"
    · simp [dispatchValue, hp]
    · by_cases hq : s = "query"
      · simp [dispatchValue, hp, hq]
      · by_cases hb : s = "body"
        · exact absurd (by rw [hb]) hne
        · simp [dispatchValue, hp, hq, hb]
  | null => rfl
  | bool b => rfl
  | num i => rfl
  | arr xs => rfl
  | obj kvs => rfl

/-- A single dispatch step leaves the collected body object unchanged
unless the field is supplied and its effective paramType is body. -/
theorem dispatchStep_body_eq (req : Option (List String)) (args : List (String × Json))
    (st st' : UrlState × List (String × Json)) (pv : String × Json)
    (hstep : dispatchStep req args st pv = Except.ok st')
    (hnb : (jGetL args pv.1).isSome = true → effParamType pv.2 ≠ Json.str "body") :
    st'.2 = st.2 := by
  unfold dispatchStep at hstep
  cases harg : jGetL args pv.1 with
  | none =>
    rw [harg] at hstep
    cases hreq : inRequired req pv.1 with
    | true => simp [hreq] at hstep
    | false =>
      simp only [hreq, Bool.false_eq_true, if_false, pure, Except.pure, Except.ok.injEq] at hstep
      rw [← hstep]
  | some value =>
    rw [harg] at hstep
    simp only [pure, Except.pure, Except.ok.injEq] at hstep
    rw [← hstep]
    exact dispatchValue_body_eq pv.1 value (effParamType pv.2) st (hnb (by rw [harg]; rfl))

/-- The argument-processing fold leaves the collected body object
unchanged when no supplied field is body-tagged. -/
theorem dispatch_fold_body_eq (req : Option (List String)) (args : List (String × Json))
    (props : List (String × Json))
    (h : ∀ pv ∈ props, (jGetL args pv.1).isSome = true → effParamType pv.2 ≠ Json.str "body") :
    ∀ st st', List.foldlM (dispatchStep req args) st props = Except.ok st' → st'.2 = st.2 := by
  induction props with
  | nil =>
    intro st st' hf
    rw [List.foldlM_nil] at hf
    cases hf; rfl
  | cons pv rest ih =>
    intro st st' hf
    rw [List.foldlM_cons] at hf
    cases hstep : dispatchStep req args st pv with
    | error e => rw [hstep] at hf; simp [Bind.bind, Except.bind] at hf
    | ok st1 =>
      rw [hstep] at hf
      simp only [Bind.bind, Except.bind] at hf
      have h1 : st1.2 = st.2 :=
        dispatchStep_body_eq req args st st1 pv hstep (h pv (List.mem_cons_self pv rest))
      exact (ih (fun q hq => h q (List.mem_cons_of_mem pv hq)) st1 st' hf).trans h1

/-!
Claim C7.
-/

/-- C7: for every tool whose method is GET or DELETE and every argument
mapping on which request building succeeds, the outgoing request carries
no body, even when body-tagged fields are supplied (they are silently
dropped). -/
theorem fetchTool_get_delete_no_body (tool : Tool) (args : List (String × Json))
    (r : RequestOut)
    (hm : tool.method = "GET" ∨ tool.method = "DELETE")
    (hr : buildRequest tool args = Except.ok r) :
    r.body = none := by
  obtain ⟨st, _, hrq⟩ := buildRequest_ok_elim tool args r hr
  subst hrq
  cases hm with
  | inl h => simp [h]
  | inr h => simp [h]

/-- A GET tool with one body-tagged field. -/
def toolC7 : Tool :=
  { name := "t", description := "d",
    endpoint := "https://apis-hub.synergyshock.com/api/use/x//a",
    method := "GET",
    inputSchema := { properties := [("b", Json.obj [("paramType", Json.str "body")])],
                     required := none, extra := [] } }

/-- Witness for C7: the GET tool invoked with a supplied body-tagged
field issues a request without a body. -/
theorem fetchTool_get_delete_no_body_witness :
    RequestOut.body { url := { pathname := "/api/use/x//a", search := [] },
                      method := "GET", body := none } = none :=
  fetchTool_get_delete_no_body toolC7 [("b", Json.num 7)]
    { url := { pathname := "/api/use/x//a", search := [] }, method := "GET", body := none }
    (Or.inl rfl) rfl

/-- A failing argument-processing fold makes buildRequest fail with the
same error. -/
theorem buildRequest_error_of_fold (tool : Tool) (args : List (String × Json)) (e : String)
    (hfold : tool.inputSchema.properties.foldlM (dispatchStep tool.inputSchema.required args)
      (parseUrl tool.endpoint, ([] : List (String × Json))) = Except.error e) :
    buildRequest tool args = Except.error e := by
  unfold buildRequest
  rw [hfold]
  rfl

/-- When some property of the schema is required and absent from the
arguments, the argument-processing fold fails with the missing-required
error of such a field. -/
theorem dispatch_fold_missing_required (req : Option (List String))
    (args : List (String × Json)) (props : List (String × Json)) :
    ∀ st, (∃ pv ∈ props, inRequired req pv.1 = true ∧ jGetL args pv.1 = none) →
      ∃ k, inRequired req k = true ∧ jGetL args k = none ∧
        List.foldlM (dispatchStep req args) st props =
          Except.error ("Missing required argument: " ++ k) := by
  induction props with
  | nil =>
    intro st h
    obtain ⟨pv, hpv, _⟩ := h
    simp at hpv
  | cons pv rest ih =>
    intro st h
    obtain ⟨q, hq, hqreq, hqabs⟩ := h
    rw [List.foldlM_cons]
    cases harg : jGetL args pv.1 with
    | none =>
      cases hreqh : inRequired req pv.1 with
      | true =>
        refine ⟨pv.1, hreqh, harg, ?_⟩
        have hstep : dispatchStep req args st pv =
            Except.error ("Missing required argument: " ++ pv.1) := by
          unfold dispatchStep
          rw [harg, hreqh]
          rfl
        rw [hstep]
        rfl
      | false =>
        have hstep : dispatchStep req args st pv = Except.ok st := by
          unfold dispatchStep
          rw [harg, hreqh]
          rfl
        rw [hstep]
        rcases List.mem_cons.mp hq with hq1 | hq2
        · subst hq1
          rw [hqreq] at hreqh
          cases hreqh
        · exact ih st ⟨q, hq2, hqreq, hqabs⟩
    | some value =>
      have hstep : dispatchStep req args st pv =
          Except.ok (dispatchValue pv.1 value (effParamType pv.2) st) := by
        unfold dispatchStep
        rw [harg]
        rfl
      rw [hstep]
      rcases List.mem_cons.mp hq with hq1 | hq2
      · subst hq1
        rw [harg] at hqabs
        cases hqabs
      · exact ih (dispatchValue pv.1 value (effParamType pv.2) st) ⟨q, hq2, hqreq, hqabs⟩

/-!
Claim C5 (corrected).
-/

/-- A tool whose required list names a field that is not among the
schema properties. -/
def toolC5 : Tool :=
  { name := "t", description := "d",
    endpoint := "https://apis-hub.synergyshock.com/api/use/x//a",
    method := "GET",
    inputSchema := { properties := [], required := some ["ghost"], extra := [] } }

/-- Counterexample to C5 as stated: the field ghost is listed in the
required list of toolC5 and absent from the empty argument mapping, yet
request building succeeds instead of failing, because the source checks
the required list only for names that occur among the schema
properties. -/
theorem fetchTool_missing_required_counterexample :
    toolC5.inputSchema.required = some ["ghost"] ∧
    jGetL ([] : List (String × Json)) "ghost" = none ∧
    buildRequest toolC5 [] =
      Except.ok { url := { pathname := "/api/use/x//a", search := [] },
                  method := "GET", body := none } :=
  ⟨rfl, rfl, rfl⟩

/-- C5 amended: for every tool and argument mapping, if some field that
occurs among the schema properties is listed identically in the required
list and absent from the supplied arguments, the dispatch fails
synchronously — buildRequest embeds fetchTool strictly before its
network call — with the missing-required error carrying such a field
name (required names not occurring among the properties are not
checked). -/
theorem fetchTool_missing_required_amended (tool : Tool) (args : List (String × Json))
    (pv : String × Json) (hmem : pv ∈ tool.inputSchema.properties)
    (hreq : inRequired tool.inputSchema.required pv.1 = true)
    (habs : jGetL args pv.1 = none) :
    ∃ k, inRequired tool.inputSchema.required k = true ∧ jGetL args k = none ∧
      buildRequest tool args = Except.error ("Missing required argument: " ++ k) := by
  obtain ⟨k, hk1, hk2, hk3⟩ :=
    dispatch_fold_missing_required tool.inputSchema.required args
      tool.inputSchema.properties (parseUrl tool.endpoint, [])
      ⟨pv, hmem, hreq, habs⟩
  exact ⟨k, hk1, hk2, buildRequest_error_of_fold tool args _ hk3⟩

/-- A tool requiring its single property name. -/
def toolC5w : Tool :=
  { name := "t", description := "d",
    endpoint := "https://apis-hub.synergyshock.com/api/use/x//a",
    method := "GET",
    inputSchema := { properties := [("name", Json.obj [("paramType", Json.str "query")])],
                     required := some ["name"], extra := [] } }

/-- Witness for the amended C5: invoking the tool without the required
name field fails with the error naming it. -/
theorem fetchTool_missing_required_amended_witness :
    ∃ k, inRequired toolC5w.inputSchema.required k = true ∧
      jGetL ([] : List (String × Json)) k = none ∧
      buildRequest toolC5w [] = Except.error ("Missing required argument: " ++ k) :=
  fetchTool_missing_required_amended toolC5w []
    ("name", Json.obj [("paramType", Json.str "query")])
    (List.mem_singleton.mpr rfl) rfl rfl

/-!
Claim C10.
-/

/-- No supplied argument is body-tagged in the tool schema. -/
def noBodyTaggedSupplied (tool : Tool) (args : List (String × Json)) : Prop :=
  ∀ pv ∈ tool.inputSchema.properties,
    (jGetL args pv.1).isSome = true → effParamType pv.2 ≠ Json.str "body"

/-- C10: for every tool whose method is neither GET nor DELETE, a
successful dispatch always attaches a JSON body, and when no supplied
argument is body-tagged that body is the serialization of the empty
object, the two-character string of an opening and a closing brace. -/
theorem fetchTool_body_always_attached (tool : Tool) (args : List (String × Json))
    (r : RequestOut)
    (hm1 : tool.method ≠ "GET") (hm2 : tool.method ≠ "DELETE")
    (hr : buildRequest tool args = Except.ok r) :
    (∃ b, r.body = some b) ∧
    (noBodyTaggedSupplied tool args → r.body = some "{}") := by
  obtain ⟨st, hfold, hrq⟩ := buildRequest_ok_elim tool args r hr
  constructor
  · subst hrq
    exact ⟨stringifyJson (Json.obj st.2), by simp [hm1, hm2]⟩
  · intro hnb
    have hnil : st.2 = ([] : List (String × Json)) :=
      dispatch_fold_body_eq tool.inputSchema.required args tool.inputSchema.properties hnb
        (parseUrl tool.endpoint, []) st hfold
    subst hrq
    simp only [hm1, hm2, hnil, ne_eq, not_false_eq_true, and_self, if_true]
    rfl

/-- A POST tool with one query field and no body-tagged field. -/
def toolC10 : Tool :=
  { name := "t", description := "d",
    endpoint := "https://apis-hub.synergyshock.com/api/use/x//a",
    method := "POST",
    inputSchema := { properties := [("q", Json.obj [("paramType", Json.str "query")])],
                     required := none, extra := [] } }

/-- Witness for C10: the POST tool invoked with a single query argument
issues a request whose body is the empty-object serialization. -/
theorem fetchTool_body_always_attached_witness :
    RequestOut.body { url := { pathname := "/api/use/x//a", search := [("q", "1")] },
                      method := "POST", body := some "{}" } = some "{}" :=
  (fetchTool_body_always_attached toolC10 [("q", Json.num 1)]
      { url := { pathname := "/api/use/x//a", search := [("q", "1")] },
        method := "POST", body := some "{}" }
      (by decide) (by decide) rfl).2
    (by
      intro pv hm hs
      simp only [toolC10, List.mem_singleton] at hm
      subst hm
      simp [effParamType, jGet, jGetL, truthy])

/-!
Association-list lemmas for property assignment.
-/

theorem jGetL_setPropL_self (l : List (String × Json)) (k : String) (v : Json) :
    jGetL (setPropL l k v) k = some v := by
  induction l with
  | nil => simp [setPropL, jGetL]
  | cons p rest ih =>
    obtain ⟨k0, v0⟩ := p
    by_cases hk : k0 = k
    · simp [setPropL, jGetL, hk]
    · simp only [setPropL, if_neg hk, jGetL]
      exact ih

theorem jGetL_setPropL_ne (l : List (String × Json)) (k k' : String) (v : Json)
    (h : k' ≠ k) : jGetL (setPropL l k' v) k = jGetL l k := by
  induction l with
  | nil => simp [setPropL, jGetL, h]
  | cons p rest ih =>
    obtain ⟨k0, v0⟩ := p
    by_cases hk : k0 = k'
    · subst hk
      simp only [setPropL, if_pos rfl, jGetL]
      rw [if_neg h, if_neg h]
    · simp only [setPropL, if_neg hk, jGetL]
      by_cases hk2 : k0 = k
      · rw [if_pos hk2, if_pos hk2]
      · rw [if_neg hk2, if_neg hk2]
        exact ih

theorem setPropL_mem (l : List (String × Json)) (k : String) (v : Json) :
    ∀ pv ∈ setPropL l k v, pv = (k, v) ∨ pv ∈ l := by
  induction l with
  | nil =>
    intro pv hpv
    simp [setPropL] at hpv
    exact Or.inl hpv
  | cons p rest ih =>
    obtain ⟨k0, v0⟩ := p
    intro pv hpv
    by_cases hk : k0 = k
    · simp only [setPropL, if_pos hk] at hpv
      rcases List.mem_cons.mp hpv with h1 | h2
      · exact Or.inl h1
      · exact Or.inr (List.mem_cons_of_mem _ h2)
    · simp only [setPropL, if_neg hk] at hpv
      rcases List.mem_cons.mp hpv with h1 | h2
      · exact Or.inr (h1 ▸ List.mem_cons_self _ _)
      · rcases ih pv h2 with h3 | h4
        · exact Or.inl h3
        · exact Or.inr (List.mem_cons_of_mem _ h4)

theorem isObj_setProp (v : Json) (k : String) (w : Json) :
    isObj (setProp v k w) = isObj v := by
  cases v <;> rfl

theorem jGet_setProp_self (v : Json) (k : String) (w : Json) (h : isObj v = true) :
    jGet (setProp v k w) k = some w := by
  cases v with
  | obj kvs => exact jGetL_setPropL_self kvs k w
  | null => cases h
  | bool b => cases h
  | num i => cases h
  | str s => cases h
  | arr xs => cases h

theorem jGet_setProp_ne (v : Json) (k k' : String) (w : Json) (h : k' ≠ k) :
    jGet (setProp v k' w) k = jGet v k := by
  cases v with
  | obj kvs => exact jGetL_setPropL_ne kvs k k' w h
  | null => rfl
  | bool b => rfl
  | num i => rfl
  | str s => rfl
  | arr xs => rfl

/-!
Parameter-tagging lemmas.
-/

theorem isObj_paramTagged (p resolved : Json) :
    isObj (paramTagged p resolved) = isObj resolved := by
  unfold paramTagged
  cases jGet p "description" with
  | none => exact isObj_setProp resolved "paramType" (paramLoc p)
  | some d =>
    by_cases hd : truthy d = true
    · simp only [hd, if_true]
      rw [isObj_setProp, isObj_setProp]
    · simp only [hd, if_false]
      exact isObj_setProp resolved "paramType" (paramLoc p)

theorem jGet_paramTagged_paramType (p resolved : Json) (h : isObj resolved = true) :
    jGet (paramTagged p resolved) "paramType" = some (paramLoc p) := by
  unfold paramTagged
  have hbase : jGet (setProp resolved "paramType" (paramLoc p)) "paramType" =
      some (paramLoc p) := jGet_setProp_self resolved "paramType" (paramLoc p) h
  cases jGet p "description" with
  | none => exact hbase
  | some d =>
    by_cases hd : truthy d = true
    · simp only [hd, if_true]
      rw [jGet_setProp_ne _ _ _ _ (by decide)]
      exact hbase
    · simp only [hd, if_false]
      exact hbase

/-!
The paramType tagging invariant (claim C2).
-/

/-- A property entry is well-tagged when an object-valued schema carries
a paramType key. -/
def propTagOk (pv : String × Json) : Prop :=
  isObj pv.2 = true → (jGet pv.2 "paramType").isSome = true

theorem processParam_tagOk (fuel : Nat) (doc : Json)
    (st st' : List (String × Json) × List String) (p : Json)
    (h : processParam fuel doc st p = some st')
    (hinv : ∀ pv ∈ st.1, propTagOk pv) :
    ∀ pv ∈ st'.1, propTagOk pv := by
  unfold processParam at h
  cases hres : resolveReferences fuel doc (paramRawSchema p) with
  | none => rw [hres] at h; cases h
  | some resolved =>
    rw [hres] at h
    simp only [Option.some_bind] at h
    cases hname : truthyStr (jGet p "name") with
    | none =>
      rw [hname] at h
      cases h
      exact hinv
    | some n =>
      rw [hname] at h
      cases h
      intro pv hpv
      rcases setPropL_mem st.1 n (paramTagged p resolved) pv hpv with h1 | h2
      · subst h1
        intro hobj
        rw [isObj_paramTagged] at hobj
        rw [jGet_paramTagged_paramType p resolved hobj]
        rfl
      · exact hinv pv h2

theorem paramsFold_tagOk (fuel : Nat) (doc : Json) (params : List Json) :
    ∀ st st', (params.foldlM (processParam fuel doc) st :
        Option (List (String × Json) × List String)) = some st' →
      (∀ pv ∈ st.1, propTagOk pv) → ∀ pv ∈ st'.1, propTagOk pv := by
  induction params with
  | nil =>
    intro st st' h hinv
    rw [List.foldlM_nil] at h
    cases h
    exact hinv
  | cons p rest ih =>
    intro st st' h hinv
    rw [List.foldlM_cons] at h
    cases hstep : processParam fuel doc st p with
    | none => rw [hstep] at h; cases h
    | some st1 =>
      rw [hstep] at h
      exact ih st1 st' h (processParam_tagOk fuel doc st st1 p hstep hinv)

theorem spliceBodyProps_tagOk (bodyProps : List (String × Json)) :
    ∀ props, (∀ pv ∈ props, propTagOk pv) →
      ∀ pv ∈ spliceBodyProps props bodyProps, propTagOk pv := by
  induction bodyProps with
  | nil =>
    intro props hinv
    exact hinv
  | cons kv rest ih =>
    intro props hinv
    show ∀ pv ∈ spliceBodyProps
      (setPropL props kv.1 (setProp kv.2 "paramType" (Json.str "body"))) rest, propTagOk pv
    refine ih _ ?_
    intro pv hpv
    rcases setPropL_mem props kv.1 (setProp kv.2 "paramType" (Json.str "body")) pv hpv with h1 | h2
    · subst h1
      intro hobj
      rw [isObj_setProp] at hobj
      rw [jGet_setProp_self kv.2 "paramType" (Json.str "body") hobj]
      rfl
    · exact hinv pv h2

theorem applyBodySchema_tagOk (rb conv : Json)
    (st : List (String × Json) × List String)
    (hinv : ∀ pv ∈ st.1, propTagOk pv) :
    ∀ pv ∈ (applyBodySchema rb conv st).1, propTagOk pv := by
  unfold applyBodySchema
  split
  · exact spliceBodyProps_tagOk _ st.1 hinv
  · intro pv hpv
    rcases setPropL_mem st.1 "_body" (setProp conv "paramType" (Json.str "body")) pv hpv
      with h1 | h2
    · subst h1
      intro hobj
      rw [isObj_setProp] at hobj
      rw [jGet_setProp_self conv "paramType" (Json.str "body") hobj]
      rfl
    · exact hinv pv h2

theorem processBody_tagOk (fuel : Nat) (doc op : Json)
    (st : List (String × Json) × List String)
    (out : List (String × Json) × List String × List (String × Json))
    (h : processBody fuel doc op st = some out)
    (hinv : ∀ pv ∈ st.1, propTagOk pv) :
    ∀ pv ∈ out.1, propTagOk pv := by
  unfold processBody at h
  cases hrb : jGet op "requestBody" with
  | none => rw [hrb] at h; cases h; exact hinv
  | some rb =>
    rw [hrb] at h
    cases hc : truthyOpt (jGet rb "content") with
    | false => simp only [hc, Bool.false_eq_true, if_false] at h; cases h; exact hinv
    | true =>
      simp only [hc, if_true] at h
      cases hentries : entriesOf ((jGet rb "content").getD Json.null) with
      | nil => rw [hentries] at h; cases h; exact hinv
      | cons e rest =>
        obtain ⟨ct, cval⟩ := e
        rw [hentries] at h
        dsimp only at h
        cases hbs : jGet cval "schema" with
        | none => rw [hbs] at h; cases h; exact hinv
        | some bs =>
          rw [hbs] at h
          cases htr : truthy bs with
          | false => simp only [htr, Bool.false_eq_true, if_false] at h; cases h; exact hinv
          | true =>
            simp only [htr, if_true] at h
            cases hres : resolveReferences fuel doc bs with
            | none => rw [hres] at h; cases h
            | some resolved =>
              rw [hres] at h
              simp only [Option.map_some', Option.some.injEq] at h
              cases hobj : jsObjLike (convertOpenApiSchema resolved) with
              | false =>
                rw [← h]
                simp only [hobj, Bool.false_eq_true, if_false]
                exact hinv
              | true =>
                rw [← h]
                simp only [hobj, if_true]
                exact applyBodySchema_tagOk rb (delSchemaKey (convertOpenApiSchema resolved))
                  st hinv

theorem generateInputSchema_tagOk (fuel : Nat) (op doc : Json) (s : InputSchema)
    (h : generateInputSchema fuel op doc = some s) :
    ∀ pv ∈ s.properties, propTagOk pv := by
  unfold generateInputSchema at h
  cases hfold : ((paramsOf op).foldlM (processParam fuel doc)
      (([], []) : List (String × Json) × List String)) with
  | none => rw [hfold] at h; cases h
  | some st =>
    rw [hfold] at h
    simp only [Option.some_bind] at h
    cases hpb : processBody fuel doc op st with
    | none => rw [hpb] at h; cases h
    | some out =>
      rw [hpb] at h
      simp only [Option.map_some', Option.some.injEq] at h
      rw [← h]
      exact processBody_tagOk fuel doc op st out hpb
        (paramsFold_tagOk fuel doc (paramsOf op) ([], []) st hfold (by intro pv hpv; cases hpv))

theorem spliceBodyProps_append (props l₁ l₂ : List (String × Json)) :
    spliceBodyProps props (l₁ ++ l₂) = spliceBodyProps (spliceBodyProps props l₁) l₂ := by
  unfold spliceBodyProps
  rw [List.foldl_append]

theorem spliceBodyProps_ne_key (bodyProps : List (String × Json)) :
    ∀ props k, (∀ kv ∈ bodyProps, kv.1 ≠ k) →
      jGetL (spliceBodyProps props bodyProps) k = jGetL props k := by
  induction bodyProps with
  | nil => intro props k _; rfl
  | cons kv rest ih =>
    intro props k h
    show jGetL (spliceBodyProps
      (setPropL props kv.1 (setProp kv.2 "paramType" (Json.str "body"))) rest) k = _
    rw [ih _ k (fun kv2 h2 => h kv2 (List.mem_cons_of_mem kv h2)),
      jGetL_setPropL_ne _ _ _ _ (h kv (List.mem_cons_self kv rest))]

theorem spliceBodyProps_get_last (props l₁ : List (String × Json)) (kv : String × Json)
    (l₂ : List (String × Json)) (h : ∀ kv2 ∈ l₂, kv2.1 ≠ kv.1) :
    jGetL (spliceBodyProps props (l₁ ++ kv :: l₂)) kv.1 =
      some (setProp kv.2 "paramType" (Json.str "body")) := by
  rw [spliceBodyProps_append]
  show jGetL (spliceBodyProps
    (setPropL (spliceBodyProps props l₁) kv.1 (setProp kv.2 "paramType" (Json.str "body")))
    l₂) kv.1 = _
  rw [spliceBodyProps_ne_key l₂ _ kv.1 h, jGetL_setPropL_self]

/-- Every property of a successfully built tool is well-tagged. -/
theorem mkTool_tagOk (fuel : Nat) (apiId : String) (doc : Json)
    (path method : String) (opVal : Json) (t : Tool)
    (h : mkTool fuel apiId doc path method opVal = some t) :
    ∀ pv ∈ t.inputSchema.properties, propTagOk pv := by
  obtain ⟨s, hs, ht⟩ := mkTool_some_elim fuel apiId doc path method opVal t h
  subst ht
  show ∀ pv ∈ s.properties, propTagOk pv
  by_cases hc : (truthyOpt (jGet opVal "parameters") ||
      truthyOpt (jGet opVal "requestBody")) = true
  · rw [if_pos hc] at hs
    exact generateInputSchema_tagOk fuel opVal doc s hs
  · rw [if_neg hc] at hs
    cases hs
    intro pv hpv
    cases hpv

/-!
Claim C2 (corrected).
-/

/-- A document whose body schema has a boolean-valued property schema. -/
def docC2 : Json :=
  Json.obj [("paths", Json.obj [("/a", Json.obj [("post", Json.obj [
    ("requestBody", Json.obj [("content", Json.obj [("application/json", Json.obj [
      ("schema", Json.obj [("type", Json.str "object"),
        ("properties", Json.obj [("x", Json.bool true)])])])])])])])])]

/-- Counterexample to C2 as stated: extraction of docC2 produces a tool
whose properties contain the key x with the boolean schema true, which
carries no paramType at all — the source tags body properties only when
their schema value is an object. -/
theorem extract_paramType_counterexample :
    extractToolsFromSwagger 5 "a" docC2 =
      some [{ name := "post__a", description := "POST /a",
              endpoint := API_GATEWAY_URL ++ "/use/a//a", method := "POST",
              inputSchema := { properties := [("x", Json.bool true)],
                               required := none, extra := [] } }] ∧
    jGet (Json.bool true) "paramType" = none :=
  ⟨rfl, rfl⟩

/-- C2 amended: every key in the properties of an extracted tool whose
schema value is an object carries a paramType (exactly one, keys of an
object being unique); object-valued keys spliced from the request body
carry paramType body; and a parameter whose in field is absent is stored
tagged with the default paramType query.  Keys whose schema value is not
an object are stored untagged. -/
theorem extract_paramType_amended :
    (∀ (fuel : Nat) (apiId : String) (doc : Json) (T : List Tool),
      extractToolsFromSwagger fuel apiId doc = some T →
      ∀ t ∈ T, ∀ pv ∈ t.inputSchema.properties,
        isObj pv.2 = true → (jGet pv.2 "paramType").isSome = true) ∧
    (∀ (props l₁ : List (String × Json)) (kv : String × Json) (l₂ : List (String × Json)),
      (∀ kv2 ∈ l₂, kv2.1 ≠ kv.1) →
      jGetL (spliceBodyProps props (l₁ ++ kv :: l₂)) kv.1 =
        some (setProp kv.2 "paramType" (Json.str "body"))) ∧
    (∀ (fuel : Nat) (doc p : Json) (n : String) (resolved : Json) (s : InputSchema),
      truthyStr (jGet p "name") = some n →
      jGet p "in" = none →
      resolveReferences fuel doc (paramRawSchema p) = some resolved →
      generateInputSchema fuel (Json.obj [("parameters", Json.arr [p])]) doc = some s →
      jGetL s.properties n = some (paramTagged p resolved) ∧
      paramLoc p = Json.str "query" ∧
      (isObj resolved = true →
        jGet (paramTagged p resolved) "paramType" = some (Json.str "query"))) := by
  refine ⟨?_, ?_, ?_⟩
  · intro fuel apiId doc T h t ht pv hpv
    rw [extract_characterization] at h
    obtain ⟨tr, _, htr⟩ := optionMapList_mem _ _ T h t ht
    exact mkTool_tagOk fuel apiId doc tr.1 tr.2.1 tr.2.2 t htr pv hpv
  · exact spliceBodyProps_get_last
  · intro fuel doc p n resolved s hname hin hres hgen
    have hloc : paramLoc p = Json.str "query" := by
      unfold paramLoc
      rw [hin]
    have hfold : ((paramsOf (Json.obj [("parameters", Json.arr [p])])).foldlM
        (processParam fuel doc) (([], []) : List (String × Json) × List String)) =
        some ([(n, paramTagged p resolved)],
          if truthyOpt (jGet p "required") then [n] else []) := by
      show (([p] : List Json).foldlM (processParam fuel doc) ([], [])) = _
      rw [List.foldlM_cons]
      unfold processParam
      rw [hres]
      simp only [Option.some_bind]
      rw [hname]
      rfl
    unfold generateInputSchema at hgen
    rw [hfold] at hgen
    simp only [Option.some_bind] at hgen
    have hbody : processBody fuel doc (Json.obj [("parameters", Json.arr [p])])
        ([(n, paramTagged p resolved)],
          if truthyOpt (jGet p "required") then [n] else []) =
        some ([(n, paramTagged p resolved)],
          (if truthyOpt (jGet p "required") then [n] else []), []) := rfl
    rw [hbody] at hgen
    simp only [Option.map_some', Option.some.injEq] at hgen
    rw [← hgen]
    refine ⟨?_, hloc, ?_⟩
    · show jGetL [(n, paramTagged p resolved)] n = some (paramTagged p resolved)
      simp [jGetL]
    · intro hobj
      rw [jGet_paramTagged_paramType p resolved hobj, hloc]

/-- A document whose body schema has an object-valued property schema. -/
def docC2w : Json :=
  Json.obj [("paths", Json.obj [("/a", Json.obj [("post", Json.obj [
    ("requestBody", Json.obj [("content", Json.obj [("application/json", Json.obj [
      ("schema", Json.obj [("type", Json.str "object"),
        ("properties", Json.obj [("x", Json.obj [("type", Json.str "integer")])])])])])])])])])]

/-- The input schema extracted from docC2w. -/
def schemaC2w : InputSchema :=
  { properties := [("x", Json.obj [("type", Json.str "integer"), ("paramType", Json.str "body")])],
    required := none,
    extra := [] }

/-- The tool extracted from docC2w. -/
def toolC2w : Tool :=
  { name := "post__a", description := "POST /a",
    endpoint := API_GATEWAY_URL ++ "/use/b//a", method := "POST",
    inputSchema := schemaC2w }

/-- A parameter without an in field. -/
def paramC2w : Json := Json.obj [("name", Json.str "q")]

/-- Witness for the amended C2 at concrete inputs: the body-derived key
of docC2w carries a paramType, a spliced object-valued body property
reads back tagged with body, and the in-less parameter is stored tagged
with query. -/
theorem extract_paramType_amended_witness :
    (jGet (Json.obj [("type", Json.str "integer"), ("paramType", Json.str "body")])
      "paramType").isSome = true ∧
    jGetL (spliceBodyProps [] ([] ++ ("x", Json.obj []) :: [])) "x" =
      some (setProp (Json.obj []) "paramType" (Json.str "body")) ∧
    jGetL [("q", Json.obj [("paramType", Json.str "query")])] "q" =
      some (paramTagged paramC2w (Json.obj [])) :=
  ⟨extract_paramType_amended.1 5 "b" docC2w [toolC2w] rfl toolC2w
      (List.mem_singleton.mpr rfl)
      ("x", Json.obj [("type", Json.str "integer"), ("paramType", Json.str "body")])
      (List.mem_singleton.mpr rfl) rfl,
   extract_paramType_amended.2.1 [] [] ("x", Json.obj []) []
      (fun kv2 h2 => absurd h2 (List.not_mem_nil kv2)),
   (extract_paramType_amended.2.2 2 (Json.obj []) paramC2w "q" (Json.obj [])
      { properties := [("q", Json.obj [("paramType", Json.str "query")])],
        required := none, extra := [] }
      rfl rfl rfl rfl).1⟩

/-!
Required-list merge lemmas.
-/

theorem mergeRequired_mem_mono (rs : List Json) :
    ∀ (req : List String) (r : String), r ∈ req → r ∈ mergeRequired req rs := by
  induction rs with
  | nil => intro req r h; exact h
  | cons v rest ih =>
    intro req r h
    cases v with
    | str r' =>
      show r ∈ mergeRequired (if r' ∈ req then req else req ++ [r']) rest
      refine ih _ r ?_
      by_cases hr : r' ∈ req
      · rw [if_pos hr]; exact h
      · rw [if_neg hr]; exact List.mem_append_left _ h
    | null => exact ih req r h
    | bool b => exact ih req r h
    | num i => exact ih req r h
    | arr xs => exact ih req r h
    | obj kvs => exact ih req r h

theorem mergeRequired_mem_str (rs : List Json) :
    ∀ (req : List String) (r : String), Json.str r ∈ rs → r ∈ mergeRequired req rs := by
  induction rs with
  | nil => intro req r h; cases h
  | cons v rest ih =>
    intro req r h
    rcases List.mem_cons.mp h with h1 | h2
    · subst h1
      show r ∈ mergeRequired (if r ∈ req then req else req ++ [r]) rest
      refine mergeRequired_mem_mono rest _ r ?_
      by_cases hr : r ∈ req
      · rw [if_pos hr]; exact hr
      · rw [if_neg hr]; exact List.mem_append_right _ (List.mem_singleton.mpr rfl)
    · cases v with
      | str r' => exact ih _ r h2
      | null => exact ih req r h2
      | bool b => exact ih req r h2
      | num i => exact ih req r h2
      | arr xs => exact ih req r h2
      | obj kvs => exact ih req r h2

theorem mergeRequired_nodup (rs : List Json) :
    ∀ req : List String, req.Nodup → (mergeRequired req rs).Nodup := by
  induction rs with
  | nil => intro req h; exact h
  | cons v rest ih =>
    intro req h
    cases v with
    | str r' =>
      show ((mergeRequired (if r' ∈ req then req else req ++ [r']) rest)).Nodup
      refine ih _ ?_
      by_cases hr : r' ∈ req
      · rw [if_pos hr]; exact h
      · rw [if_neg hr]
        simp [List.nodup_append, h, hr]
    | null => exact ih req h
    | bool b => exact ih req h
    | num i => exact ih req h
    | arr xs => exact ih req h
    | obj kvs => exact ih req h

/-!
Claim C3 (corrected).
-/

/-- The converted, $schema-stripped body schema. -/
def bodyConv (resolved : Json) : Json :=
  delSchemaKey (convertOpenApiSchema resolved)

/-- Reduction of processBody under the hypotheses that a first content
type with a truthy schema exists and resolves. -/
theorem processBody_reduces (fuel : Nat) (doc op : Json)
    (st : List (String × Json) × List String)
    (rb : Json) (ct : String) (cval bs resolved : Json)
    (rest : List (String × Json))
    (hrb : jGet op "requestBody" = some rb)
    (hc : truthyOpt (jGet rb "content") = true)
    (hent : entriesOf ((jGet rb "content").getD Json.null) = (ct, cval) :: rest)
    (hbs : jGet cval "schema" = some bs)
    (htr : truthy bs = true)
    (hres : resolveReferences fuel doc bs = some resolved) :
    processBody fuel doc op st =
      some (if jsObjLike (convertOpenApiSchema resolved) = true
            then applyBodySchema rb (bodyConv resolved) st
            else (st.1, st.2, [])) := by
  unfold processBody
  rw [hrb]
  simp only [hc, if_true]
  rw [hent]
  dsimp only
  rw [hbs]
  simp only [htr, if_true]
  rw [hres]
  simp only [Option.map_some']
  rfl

/-- A document whose request body schema is the bare string foo, with
the request body marked required. -/
def docC3 : Json :=
  Json.obj [("paths", Json.obj [("/a", Json.obj [("post", Json.obj [
    ("requestBody", Json.obj [
      ("required", Json.bool true),
      ("content", Json.obj [("text/plain", Json.obj [
        ("schema", Json.str "foo")])])])])])])]

/-- The tool extracted from docC3: no _body field and no required
list. -/
def toolC3 : Tool :=
  { name := "post__a", description := "POST /a",
    endpoint := API_GATEWAY_URL ++ "/use/c//a", method := "POST",
    inputSchema := { properties := [], required := none, extra := [] } }

/-- Counterexample to C3 as stated: the body schema of docC3 is not an
object-with-properties and the request body is marked required, so the
claim demands a required synthetic _body field, yet the extracted tool
has no _body property and no required list at all — a converted body
schema that is not a JavaScript object contributes nothing. -/
theorem body_flattening_counterexample :
    extractToolsFromSwagger 5 "c" docC3 = some [toolC3] ∧
    jGetL toolC3.inputSchema.properties "_body" = none ∧
    toolC3.inputSchema.required = none :=
  ⟨rfl, rfl, rfl⟩

/-- C3 amended: under the hypotheses that the operation has a request
body with truthy content whose first content type carries a truthy
schema that resolves, three cases describe the flattening.  When the
converted schema is object-like and has type object with truthy
properties, every body property whose key does not recur later is
stored at the top level as its schema with paramType body set when the
schema is an object (non-object property schemas are spliced
unchanged, hence untagged), and the body required names are appended to
the required list without ever introducing duplicates.  When the
converted schema is object-like but not an object-with-properties, the
whole schema is stored under the synthetic field _body tagged with
paramType body, and _body is added to the required list exactly when
the request body is truthily marked required.  When the converted
schema is not object-like — a scalar — nothing is stored at all, not
even _body, whatever the required mark says. -/
theorem body_flattening_amended (fuel : Nat) (doc op : Json)
    (st : List (String × Json) × List String)
    (rb : Json) (ct : String) (cval bs resolved : Json)
    (rest : List (String × Json))
    (hrb : jGet op "requestBody" = some rb)
    (hc : truthyOpt (jGet rb "content") = true)
    (hent : entriesOf ((jGet rb "content").getD Json.null) = (ct, cval) :: rest)
    (hbs : jGet cval "schema" = some bs)
    (htr : truthy bs = true)
    (hres : resolveReferences fuel doc bs = some resolved) :
    (jsObjLike (convertOpenApiSchema resolved) = true →
      isObjectWithProps (bodyConv resolved) = true →
      ∃ out, processBody fuel doc op st = some out ∧
        (∀ (l₁ : List (String × Json)) (kv : String × Json) (l₂ : List (String × Json)),
          entriesOf ((jGet (bodyConv resolved) "properties").getD Json.null) = l₁ ++ kv :: l₂ →
          (∀ kv2 ∈ l₂, kv2.1 ≠ kv.1) →
          jGetL out.1 kv.1 = some (setProp kv.2 "paramType" (Json.str "body"))) ∧
        (∀ rs : List Json, jGet (bodyConv resolved) "required" = some (Json.arr rs) →
          (∀ r : String, Json.str r ∈ rs → r ∈ out.2.1) ∧
          (st.2.Nodup → out.2.1.Nodup))) ∧
    (jsObjLike (convertOpenApiSchema resolved) = true →
      isObjectWithProps (bodyConv resolved) = false →
      ∃ out, processBody fuel doc op st = some out ∧
        jGetL out.1 "_body" =
          some (setProp (bodyConv resolved) "paramType" (Json.str "body")) ∧
        ("_body" ∉ st.2 →
          ("_body" ∈ out.2.1 ↔ truthyOpt (jGet rb "required") = true))) ∧
    (jsObjLike (convertOpenApiSchema resolved) = false →
      processBody fuel doc op st = some (st.1, st.2, [])) := by
  have hpb := processBody_reduces fuel doc op st rb ct cval bs resolved rest
    hrb hc hent hbs htr hres
  refine ⟨?_, ?_, ?_⟩
  · intro hobj hcond
    rw [hpb]
    simp only [hobj, if_true]
    refine ⟨applyBodySchema rb (bodyConv resolved) st, rfl, ?_, ?_⟩
    · intro l₁ kv l₂ hsplit hlast
      unfold applyBodySchema
      rw [if_pos hcond]
      show jGetL (spliceBodyProps st.1
        (entriesOf ((jGet (bodyConv resolved) "properties").getD Json.null))) kv.1 = _
      rw [hsplit]
      exact spliceBodyProps_get_last st.1 l₁ kv l₂ hlast
    · intro rs hrs
      unfold applyBodySchema
      rw [if_pos hcond]
      show (∀ r : String, Json.str r ∈ rs →
          r ∈ (match jGet (bodyConv resolved) "required" with
               | some (Json.arr rs) => mergeRequired st.2 rs
               | _ => st.2)) ∧ _
      rw [hrs]
      exact ⟨fun r hr => mergeRequired_mem_str rs st.2 r hr,
             fun hnd => mergeRequired_nodup rs st.2 hnd⟩
  · intro hobj hcond
    rw [hpb]
    simp only [hobj, if_true]
    refine ⟨applyBodySchema rb (bodyConv resolved) st, rfl, ?_, ?_⟩
    · unfold applyBodySchema
      rw [if_neg (by rw [hcond]; exact Bool.false_ne_true)]
      exact jGetL_setPropL_self st.1 "_body" _
    · intro hnotin
      unfold applyBodySchema
      rw [if_neg (by rw [hcond]; exact Bool.false_ne_true)]
      show "_body" ∈ (if truthyOpt (jGet rb "required") then st.2 ++ ["_body"] else st.2) ↔ _
      cases hreq : truthyOpt (jGet rb "required") with
      | true =>
        simp only [hreq, if_true]
        exact ⟨fun _ => trivial, fun _ => List.mem_append_right _ (List.mem_singleton.mpr rfl)⟩
      | false =>
        simp only [hreq, Bool.false_eq_true, if_false]
        exact ⟨fun h => absurd h hnotin, fun h => h.elim⟩
  · intro hobj
    rw [hpb]
    simp only [hobj, Bool.false_eq_true, if_false]

/-- An object body schema with one string property and one required
name. -/
def bsA : Json := Json.obj [("type", Json.str "object"),
  ("properties", Json.obj [("x", Json.obj [("type", Json.str "string")])]),
  ("required", Json.arr [Json.str "x"])]

/-- The content entry of bsA. -/
def cvalA : Json := Json.obj [("schema", bsA)]

/-- A request body with bsA under one content type. -/
def rbA : Json := Json.obj [("content", Json.obj [("application/json", cvalA)])]

/-- An operation carrying rbA. -/
def opA : Json := Json.obj [("requestBody", rbA)]

/-- A scalar-typed body schema object. -/
def bsB : Json := Json.obj [("type", Json.str "string")]

/-- The content entry of bsB. -/
def cvalB : Json := Json.obj [("schema", bsB)]

/-- A required request body with bsB under one content type. -/
def rbB : Json := Json.obj [("required", Json.bool true),
  ("content", Json.obj [("application/json", cvalB)])]

/-- An operation carrying rbB. -/
def opB : Json := Json.obj [("requestBody", rbB)]

/-- Witness for the amended C3: the object body of opA splices x at the
top level tagged with body and puts x into the required list, and the
scalar-typed object body of opB stores a required _body tagged with
body. -/
theorem body_flattening_amended_witness :
    jGetL [("x", Json.obj [("type", Json.str "string"), ("paramType", Json.str "body")])]
      "x" = some (Json.obj [("type", Json.str "string"), ("paramType", Json.str "body")]) ∧
    "x" ∈ (["x"] : List String) ∧
    jGetL [("_body", Json.obj [("type", Json.str "string"), ("paramType", Json.str "body")])]
      "_body" = some (Json.obj [("type", Json.str "string"), ("paramType", Json.str "body")]) ∧
    ("_body" ∈ (["_body"] : List String) ↔ truthyOpt (jGet rbB "required") = true) := by
  obtain ⟨outA, houtA, hsplice, hreq⟩ :=
    (body_flattening_amended 5 (Json.obj []) opA ([], []) rbA "application/json" cvalA bsA
      bsA [] rfl rfl rfl rfl rfl rfl).1 rfl rfl
  have heqA : outA =
      (([("x", Json.obj [("type", Json.str "string"), ("paramType", Json.str "body")])],
        ["x"], []) :
        List (String × Json) × List String × List (String × Json)) :=
    Option.some.inj (houtA.symm.trans rfl)
  obtain ⟨outB, houtB, hbody, hbreq⟩ :=
    (body_flattening_amended 5 (Json.obj []) opB ([], []) rbB "application/json" cvalB bsB
      bsB [] rfl rfl rfl rfl rfl rfl).2.1 rfl rfl
  have heqB : outB =
      (([("_body", Json.obj [("type", Json.str "string"), ("paramType", Json.str "body")])],
        ["_body"], []) :
        List (String × Json) × List String × List (String × Json)) :=
    Option.some.inj (houtB.symm.trans rfl)
  refine ⟨?_, ?_, ?_, ?_⟩
  · have h := hsplice [] ("x", Json.obj [("type", Json.str "string")]) [] rfl
      (fun kv2 h2 => absurd h2 (List.not_mem_nil kv2))
    rw [heqA] at h
    exact h
  · have h := (hreq [Json.str "x"] rfl).1 "x" (List.mem_singleton.mpr rfl)
    rw [heqA] at h
    exact h
  · have h := hbody
    rw [heqB] at h
    exact h
  · have h := hbreq (List.not_mem_nil "_body")
    rw [heqB] at h
    exact h

/-!
String lemmas for path substitution (claim C6).
-/

theorem lPre_append_self (pat ys : List Char) : lPre pat (pat ++ ys) = true := by
  induction pat with
  | nil => rfl
  | cons p ps ih => simp [lPre, ih]

theorem replaceFirstL_exact (patRest repl : List Char) :
    ∀ pre : List Char, '%' ∉ pre →
      replaceFirstL ('%' :: patRest) repl (pre ++ '%' :: patRest) = pre ++ repl := by
  intro pre
  induction pre with
  | nil =>
    intro _
    have hp : lPre ('%' :: patRest) ('%' :: patRest) = true := by
      have h2 := lPre_append_self ('%' :: patRest) []
      rwa [List.append_nil] at h2
    show replaceFirstL ('%' :: patRest) repl ('%' :: patRest) = repl
    unfold replaceFirstL
    rw [hp]
    simp [List.drop_length]
  | cons c cs ih =>
    intro h
    have hc : c ≠ '%' := fun hcc => h (hcc ▸ List.mem_cons_self c cs)
    have hpre : lPre ('%' :: patRest) (c :: (cs ++ '%' :: patRest)) = false := by
      simp [lPre]
      intro hpc
      exact absurd hpc.symm hc
    show replaceFirstL ('%' :: patRest) repl (c :: (cs ++ '%' :: patRest)) = _
    unfold replaceFirstL
    rw [hpre]
    simp only [Bool.false_eq_true, if_false, List.cons_append, List.cons.injEq, true_and]
    exact ih (fun hm => h (List.mem_cons_of_mem c hm))

theorem encodeBracesL_append (l₁ l₂ : List Char) :
    encodeBracesL (l₁ ++ l₂) = encodeBracesL l₁ ++ encodeBracesL l₂ := by
  induction l₁ with
  | nil => rfl
  | cons c cs ih => simp [encodeBracesL, ih]

theorem encodeBracesL_id (l : List Char) (h : ∀ c ∈ l, c ≠ '{' ∧ c ≠ '}') :
    encodeBracesL l = l := by
  induction l with
  | nil => rfl
  | cons c cs ih =>
    obtain ⟨h1, h2⟩ := h c (List.mem_cons_self c cs)
    simp [encodeBracesL, h1, h2, ih (fun x hx => h x (List.mem_cons_of_mem c hx))]

theorem not_infix_of_pct_free (l rest : List Char) (h : '%' ∉ l) :
    ¬ List.IsInfix ('%' :: rest) l := by
  rintro ⟨s, t, heq⟩
  exact h (by rw [← heq]; simp)

/-- Characters safe for the URL model: no braces and no percent. -/
def charOkStr (s : String) : Prop :=
  ∀ c ∈ s.data, c ≠ '{' ∧ c ≠ '}' ∧ c ≠ '%'

/-!
Claim C6 (corrected).
-/

/-- A document with a single get operation on a braced path template
with one required path parameter. -/
def docC6 : Json :=
  Json.obj [("paths", Json.obj [("/pets/{id}", Json.obj [("get", Json.obj [
    ("operationId", Json.str "getPet"),
    ("parameters", Json.arr [Json.obj [
      ("name", Json.str "id"),
      ("in", Json.str "path"),
      ("required", Json.bool true),
      ("schema", Json.obj [("type", Json.str "integer")])]])])])])]

/-- The input schema extracted from docC6. -/
def schemaC6 : InputSchema :=
  { properties := [("id", Json.obj [("type", Json.str "integer"), ("paramType", Json.str "path")])],
    required := some ["id"],
    extra := [] }

/-- The tool extracted from docC6 for a given API identifier. -/
def toolC6 (apiId : String) : Tool :=
  { name := "getPet", description := "GET /pets/{id}",
    endpoint := API_GATEWAY_URL ++ "/use/" ++ apiId ++ "/" ++ "/pets/{id}",
    method := "GET",
    inputSchema := schemaC6 }

/-- Counterexample to C6 as stated: the endpoint of the tool extracted
from docC6 contains the raw brace placeholder and no percent-encoded
one — the encoding only appears in the parsed URL pathname inside the
dispatcher, not in the endpoint string itself. -/
theorem endpoint_template_counterexample :
    extractToolsFromSwagger 3 "p" docC6 = some [toolC6 "p"] ∧
    List.IsInfix "{id}".data (toolC6 "p").endpoint.data ∧
    ¬ List.IsInfix "%7B".data (toolC6 "p").endpoint.data :=
  ⟨rfl, by decide, by decide⟩

/-- The pathname obtained after substituting the id placeholder. -/
def pathC6 (apiId vs : String) : String :=
  "/api/use/" ++ apiId ++ "//pets/" ++ vs

theorem parseUrl_toolC6 (apiId : String) (hA : charOkStr apiId) :
    (parseUrl (toolC6 apiId).endpoint).pathname =
      String.mk (("/api/use/".data ++ apiId.data ++ "//pets/".data) ++ "%7Bid%7D".data) := by
  have hdata : (toolC6 apiId).endpoint.data =
      API_GATEWAY_URL.data ++ ("/use/".data ++ (apiId.data ++ ("/".data ++ "/pets/{id}".data))) := by
    simp [toolC6, String.data_append, List.append_assoc]
  show String.mk (encodeBracesL ((toolC6 apiId).endpoint.data.drop gatewayOrigin.data.length)) = _
  rw [hdata]
  rw [List.drop_append_of_le_length (by decide)]
  rw [show API_GATEWAY_URL.data.drop gatewayOrigin.data.length = "/api".data from rfl]
  rw [encodeBracesL_append, encodeBracesL_append, encodeBracesL_append, encodeBracesL_append]
  rw [show encodeBracesL "/api".data = "/api".data from rfl,
      show encodeBracesL "/use/".data = "/use/".data from rfl,
      show encodeBracesL "/".data = "/".data from rfl,
      show encodeBracesL "/pets/{id}".data = ("/pets/".data ++ "%7Bid%7D".data) from rfl,
      encodeBracesL_id apiId.data (fun c hc => ⟨(hA c hc).1, (hA c hc).2.1⟩)]
  apply congrArg String.mk
  simp [List.append_assoc]

/-- C6 amended: every produced tool endpoint preserves the OpenAPI path
template verbatim with raw braces (gateway base, use segment, API
identifier, slash, template); the encoding into %7B and %7D happens when
the dispatcher parses the endpoint into a URL, and invoking the
path-parameter tool of docC6 with an argument for id whose string form
is free of braces and percent characters (every integer is) produces a
request URL with the string form of the value in place and no remaining
encoded placeholder. -/
theorem endpoint_template_amended :
    (∀ (fuel : Nat) (apiId : String) (doc : Json) (T : List Tool) (t : Tool),
      extractToolsFromSwagger fuel apiId doc = some T → t ∈ T →
      ∃ tr ∈ opTriples doc,
        t.endpoint = API_GATEWAY_URL ++ "/use/" ++ apiId ++ "/" ++ tr.1) ∧
    (∀ apiId : String, extractToolsFromSwagger 3 apiId docC6 = some [toolC6 apiId]) ∧
    (∀ (apiId : String) (v : Json), charOkStr apiId → charOkStr (jsToString v) →
      buildRequest (toolC6 apiId) [("id", v)] =
        Except.ok { url := { pathname := pathC6 apiId (jsToString v), search := [] },
                    method := "GET", body := none } ∧
      ¬ List.IsInfix "%7B".data (pathC6 apiId (jsToString v)).data) := by
  refine ⟨?_, fun _ => rfl, ?_⟩
  · intro fuel apiId doc T t h ht
    rw [extract_characterization] at h
    obtain ⟨tr, htr, hmk⟩ := optionMapList_mem _ _ T h t ht
    obtain ⟨s, _, hts⟩ := mkTool_some_elim fuel apiId doc tr.1 tr.2.1 tr.2.2 t hmk
    exact ⟨tr, htr, by rw [hts]⟩
  · intro apiId v hA hV
    have hpct : '%' ∉ ("/api/use/".data ++ apiId.data ++ "//pets/".data) := by
      intro hm
      rcases List.mem_append.mp hm with hm1 | hm2
      · rcases List.mem_append.mp hm1 with hm3 | hm4
        · exact absurd hm3 (by decide)
        · exact absurd rfl (hA '%' hm4).2.2
      · exact absurd hm2 (by decide)
    have hrepl : replaceFirst (parseUrl (toolC6 apiId).endpoint).pathname
        "%7Bid%7D" (jsToString v) = pathC6 apiId (jsToString v) := by
      rw [parseUrl_toolC6 apiId hA]
      show String.mk (replaceFirstL ('%' :: "7Bid%7D".data) (jsToString v).data
        (("/api/use/".data ++ apiId.data ++ "//pets/".data) ++ '%' :: "7Bid%7D".data)) = _
      rw [replaceFirstL_exact "7Bid%7D".data (jsToString v).data
        ("/api/use/".data ++ apiId.data ++ "//pets/".data) hpct]
      apply congrArg String.mk
      show _ = ((("/api/use/" ++ apiId) ++ "//pets/") ++ jsToString v).data
      simp [String.data_append, List.append_assoc]
    constructor
    · rw [show buildRequest (toolC6 apiId) [("id", v)] = Except.ok
          { url := { pathname := replaceFirst (parseUrl (toolC6 apiId).endpoint).pathname
                       "%7Bid%7D" (jsToString v), search := [] },
            method := "GET", body := none } from rfl]
      rw [hrepl]
    · show ¬ List.IsInfix ('%' :: "7B".data) (pathC6 apiId (jsToString v)).data
      apply not_infix_of_pct_free
      show '%' ∉ ((("/api/use/" ++ apiId) ++ "//pets/") ++ jsToString v).data
      simp only [String.data_append]
      intro hm
      rcases List.mem_append.mp hm with hm1 | hm2
      · rcases List.mem_append.mp hm1 with hm3 | hm4
        · rcases List.mem_append.mp hm3 with hm5 | hm6
          · exact absurd hm5 (by decide)
          · exact absurd rfl (hA '%' hm6).2.2
        · exact absurd hm4 (by decide)
      · exact absurd rfl (hV '%' hm2).2.2

/-- Witness for the amended C6: the sw identifier with the integer 42
substitutes into the pathname with no remaining placeholder, and the
extracted endpoint of docC6 keeps the raw template. -/
theorem endpoint_template_amended_witness :
    buildRequest (toolC6 "sw") [("id", Json.num 42)] =
      Except.ok { url := { pathname := pathC6 "sw" "42", search := [] },
                  method := "GET", body := none } ∧
    ¬ List.IsInfix "%7B".data (pathC6 "sw" "42").data ∧
    extractToolsFromSwagger 3 "sw" docC6 = some [toolC6 "sw"] := by
  have h := endpoint_template_amended.2.2 "sw" (Json.num 42)
    (by intro c hc; fin_cases hc <;> exact ⟨by decide, by decide, by decide⟩)
    (by intro c hc; fin_cases hc <;> exact ⟨by decide, by decide, by decide⟩)
  exact ⟨h.1, h.2, endpoint_template_amended.2.1 "sw"⟩

/-!
Size and reference-collection measures for the termination claim (C8).
-/

mutual
/-- Structural size of a Json value. -/
def sizeJ : Json → Nat
  | Json.null => 1
  | Json.bool _ => 1
  | Json.num _ => 1
  | Json.str _ => 1
  | Json.arr xs => 1 + sizeArr xs
  | Json.obj kvs => 1 + sizeProps kvs

/-- Size of array elements. -/
def sizeArr : List Json → Nat
  | [] => 0
  | x :: xs => 1 + sizeJ x + sizeArr xs

/-- Size of object properties. -/
def sizeProps : List (String × Json) → Nat
  | [] => 0
  | kv :: kvs => 1 + sizeJ kv.2 + sizeProps kvs
end

mutual
/-- Every reference string occurring in a value: the string values of
$ref keys, at any depth. -/
def refsOf : Json → List String
  | Json.obj kvs => refsProps kvs
  | Json.arr xs => refsArr xs
  | _ => []

/-- References of array elements. -/
def refsArr : List Json → List String
  | [] => []
  | x :: xs => refsOf x ++ refsArr xs

/-- References of object properties, including the value of a $ref
key. -/
def refsProps : List (String × Json) → List String
  | [] => []
  | kv :: kvs =>
    (if kv.1 = "$ref" then
      (match kv.2 with
       | Json.str r => [r]
       | _ => []) else []) ++ refsOf kv.2 ++ refsProps kvs
end

theorem sizeJ_pos (v : Json) : 1 ≤ sizeJ v := by
  cases v <;> unfold sizeJ <;> omega

theorem sizeProps_mem (kvs : List (String × Json)) :
    ∀ p ∈ kvs, sizeJ p.2 + 1 ≤ sizeJ (Json.obj kvs) := by
  induction kvs with
  | nil => intro p hp; cases hp
  | cons kv rest ih =>
    intro p hp
    rcases List.mem_cons.mp hp with h1 | h2
    · subst h1
      simp [sizeJ, sizeProps]
      omega
    · have := ih p h2
      simp [sizeJ, sizeProps] at this ⊢
      omega

theorem sizeArr_mem (xs : List Json) :
    ∀ x ∈ xs, sizeJ x + 1 ≤ sizeJ (Json.arr xs) := by
  induction xs with
  | nil => intro x hx; cases hx
  | cons y rest ih =>
    intro x hx
    rcases List.mem_cons.mp hx with h1 | h2
    · subst h1
      simp [sizeJ, sizeArr]
      omega
    · have := ih x h2
      simp [sizeJ, sizeArr] at this ⊢
      omega

theorem refsProps_getL (kvs : List (String × Json)) (r : String)
    (h : jGetL kvs "$ref" = some (Json.str r)) : r ∈ refsProps kvs := by
  induction kvs with
  | nil => cases h
  | cons kv rest ih =>
    obtain ⟨k0, v0⟩ := kv
    unfold jGetL at h
    by_cases hk : k0 = "$ref"
    · rw [if_pos hk] at h
      have hv := Option.some.inj h
      subst hv
      subst hk
      simp [refsProps]
    · rw [if_neg hk] at h
      simp only [refsProps, if_neg hk, List.nil_append]
      exact List.mem_append_right _ (ih h)

theorem refsProps_value (kvs : List (String × Json)) :
    ∀ p ∈ kvs, ∀ r ∈ refsOf p.2, r ∈ refsProps kvs := by
  induction kvs with
  | nil => intro p hp; cases hp
  | cons kv rest ih =>
    intro p hp r hr
    rcases List.mem_cons.mp hp with h1 | h2
    · subst h1
      simp only [refsProps, List.append_assoc]
      exact List.mem_append_right _ (List.mem_append_left _ hr)
    · simp only [refsProps, List.append_assoc]
      exact List.mem_append_right _ (List.mem_append_right _ (ih p h2 r hr))

theorem refsArr_elem (xs : List Json) :
    ∀ x ∈ xs, ∀ r ∈ refsOf x, r ∈ refsArr xs := by
  induction xs with
  | nil => intro x hx; cases hx
  | cons y rest ih =>
    intro x hx r hr
    rcases List.mem_cons.mp hx with h1 | h2
    · subst h1
      exact List.mem_append_left _ hr
    · exact List.mem_append_right _ (ih x h2 r hr)

theorem jGetL_mem (kvs : List (String × Json)) (k : String) (v : Json)
    (h : jGetL kvs k = some v) : (k, v) ∈ kvs := by
  induction kvs with
  | nil => cases h
  | cons kv rest ih =>
    obtain ⟨k0, v0⟩ := kv
    unfold jGetL at h
    by_cases hk : k0 = k
    · rw [if_pos hk] at h
      have hv := Option.some.inj h
      subst hv
      subst hk
      exact List.mem_cons_self _ _
    · rw [if_neg hk] at h
      exact List.mem_cons_of_mem _ (ih h)

/-- Every value reached by walking the document has references and size
bounded by those of the document. -/
theorem walkSegments_sub (segs : List String) :
    ∀ (doc t : Json), walkSegments doc segs = some t →
      (∀ r ∈ refsOf t, r ∈ refsOf doc) ∧ sizeJ t ≤ sizeJ doc := by
  induction segs with
  | nil =>
    intro doc t h
    cases h
    exact ⟨fun r hr => hr, le_refl _⟩
  | cons seg rest ih =>
    intro doc t h
    cases doc with
    | obj kvs =>
      have h' : (match jGetL kvs seg with
          | some v => walkSegments v rest
          | none => none) = some t := h
      cases hget : jGetL kvs seg with
      | none => rw [hget] at h'; cases h'
      | some v =>
        rw [hget] at h'
        obtain ⟨hrefs, hsize⟩ := ih v t h'
        have hmem := jGetL_mem kvs seg v hget
        constructor
        · intro r hr
          exact refsProps_value kvs (seg, v) hmem r (hrefs r hr)
        · have h2 : sizeJ v + 1 ≤ sizeJ (Json.obj kvs) := sizeProps_mem kvs (seg, v) hmem
          omega
    | arr xs =>
      have h' : (match decDigits? seg.data with
          | some i =>
            if hi : i < xs.length then
              if toString i = seg then walkSegments (xs.get ⟨i, hi⟩) rest else none
            else none
          | none => none) = some t := h
      cases hdig : decDigits? seg.data with
      | none => rw [hdig] at h'; cases h'
      | some i =>
        rw [hdig] at h'
        have h2 : (if hi : i < xs.length then
            (if toString i = seg then walkSegments (xs.get ⟨i, hi⟩) rest else none)
          else none) = some t := h'
        by_cases hlt : i < xs.length
        · rw [dif_pos hlt] at h2
          by_cases hcan : toString i = seg
          · rw [if_pos hcan] at h2
            obtain ⟨hrefs, hsize⟩ := ih (xs.get ⟨i, hlt⟩) t h2
            have hmem := xs.get_mem i hlt
            constructor
            · intro r hr
              exact refsArr_elem xs _ hmem r (hrefs r hr)
            · have h3 : sizeJ (xs.get ⟨i, hlt⟩) + 1 ≤ sizeJ (Json.arr xs) :=
                sizeArr_mem xs _ hmem
              omega
          · rw [if_neg hcan] at h2
            cases h2
        · rw [dif_neg hlt] at h2
          cases h2
    | null => exact Option.noConfusion h
    | bool b => exact Option.noConfusion h
    | num i => exact Option.noConfusion h
    | str s => exact Option.noConfusion h

theorem optionMapList_isSome (f : α → Option β) (l : List α)
    (h : ∀ x ∈ l, (f x).isSome = true) : (optionMapList f l).isSome = true := by
  induction l with
  | nil => rfl
  | cons x xs ih =>
    unfold optionMapList
    cases hf : f x with
    | none =>
      have := h x (List.mem_cons_self x xs)
      rw [hf] at this
      cases this
    | some y =>
      cases hxs : optionMapList f xs with
      | none =>
        have := ih (fun z hz => h z (List.mem_cons_of_mem x hz))
        rw [hxs] at this
        cases this
      | some ys => rfl

theorem isSome_map_opt (f : α → β) (o : Option α) : (o.map f).isSome = o.isSome := by
  cases o <;> rfl

theorem rebuild_isSome (doc : Json) (fuel : Nat) (kvs : List (String × Json))
    (hel : ∀ p ∈ kvs.filter (fun p => p.1 ≠ "$schema"),
      (resolveReferences fuel doc p.2).isSome = true) :
    ((optionMapList (fun p => (resolveReferences fuel doc p.2).map (fun x => (p.1, x)))
      (kvs.filter (fun p => p.1 ≠ "$schema"))).map Json.obj).isSome = true := by
  rw [isSome_map_opt]
  refine optionMapList_isSome _ _ ?_
  intro p hp
  rw [isSome_map_opt]
  exact hel p hp

/-- Fuel sufficiency: with a cost measure witnessing that reference
chains descend, the resolver succeeds once the fuel covers the size of
the fragment plus the cost budget. -/
theorem resolveReferences_isSome (doc : Json) (cost : String → Nat) (S : Nat)
    (hdoc : ∀ (r : String) (t : Json),
      walkSegments doc (refSegments r) = some t →
      1 ≤ cost r ∧ sizeJ t ≤ S ∧ ∀ r' ∈ refsOf t, cost r' < cost r) :
    ∀ (fuel : Nat) (v : Json) (c : Nat),
      (∀ r ∈ refsOf v, cost r ≤ c) →
      sizeJ v + c * (S + 1) ≤ fuel →
      (resolveReferences fuel doc v).isSome = true := by
  intro fuel
  induction fuel with
  | zero =>
    intro v c _ hfuel
    have := sizeJ_pos v
    omega
  | succ fuel ih =>
    intro v c hc hfuel
    cases v with
    | null => rfl
    | bool b => rfl
    | num i => rfl
    | str s => rfl
    | arr xs =>
      show ((optionMapList (fun x => resolveReferences fuel doc x) xs).map Json.arr).isSome = true
      rw [isSome_map_opt]
      refine optionMapList_isSome _ xs ?_
      intro x hx
      refine ih x c (fun r hr => hc r (refsArr_elem xs x hx r hr)) ?_
      have h2 : sizeJ x + 1 ≤ sizeJ (Json.arr xs) := sizeArr_mem xs x hx
      omega
    | obj kvs =>
      have hstep : ∀ p ∈ kvs.filter (fun p => p.1 ≠ "$schema"),
          (resolveReferences fuel doc p.2).isSome = true := by
        intro p hp
        have hpk : p ∈ kvs := (List.mem_filter.mp hp).1
        refine ih p.2 c (fun r hr => hc r (refsProps_value kvs p hpk r hr)) ?_
        have h2 : sizeJ p.2 + 1 ≤ sizeJ (Json.obj kvs) := sizeProps_mem kvs p hpk
        omega
      cases href : jGetL kvs "$ref" with
      | some rv =>
        cases rv with
        | str r =>
          have hr : r ∈ refsOf (Json.obj kvs) := refsProps_getL kvs r href
          have hcr : cost r ≤ c := hc r hr
          cases hwalk : walkSegments doc (refSegments r) with
          | none => simp [resolveReferences, href, hwalk]
          | some t =>
            simp only [resolveReferences, href, hwalk]
            obtain ⟨hc1, hS, hlt⟩ := hdoc r t hwalk
            refine ih t (c - 1) (fun r' hr' => by have := hlt r' hr'; omega) ?_
            have hcpos : 1 ≤ c := le_trans hc1 hcr
            have hceq : c - 1 + 1 = c := Nat.succ_pred_eq_of_pos hcpos
            have hmul : c * (S + 1) = (c - 1) * (S + 1) + (S + 1) := by
              calc c * (S + 1) = (c - 1 + 1) * (S + 1) := by rw [hceq]
                _ = (c - 1) * (S + 1) + (S + 1) := by rw [Nat.succ_mul]
            have hsz : 1 ≤ sizeJ (Json.obj kvs) := sizeJ_pos _
            set a := (c - 1) * (S + 1) with ha
            rw [hmul] at hfuel
            omega
        | null =>
          simp only [resolveReferences, href]
          exact rebuild_isSome doc fuel kvs hstep
        | bool b =>
          simp only [resolveReferences, href]
          exact rebuild_isSome doc fuel kvs hstep
        | num i =>
          simp only [resolveReferences, href]
          exact rebuild_isSome doc fuel kvs hstep
        | arr ys =>
          simp only [resolveReferences, href]
          exact rebuild_isSome doc fuel kvs hstep
        | obj kvs2 =>
          simp only [resolveReferences, href]
          exact rebuild_isSome doc fuel kvs hstep
      | none =>
        simp only [resolveReferences, href]
        exact rebuild_isSome doc fuel kvs hstep

/-- A set of reference strings closed under the step that walks to an
object carrying another reference of the set traps the resolver: no
fuel suffices. -/
theorem resolveReferences_cycle_none (doc : Json) (R : List String)
    (hR : ∀ r ∈ R, ∃ kvs r', walkSegments doc (refSegments r) = some (Json.obj kvs) ∧
      jGetL kvs "$ref" = some (Json.str r') ∧ r' ∈ R) :
    ∀ (fuel : Nat) (kvs0 : List (String × Json)) (r : String),
      jGetL kvs0 "$ref" = some (Json.str r) → r ∈ R →
      resolveReferences fuel doc (Json.obj kvs0) = none := by
  intro fuel
  induction fuel with
  | zero => intro kvs0 r _ _; rfl
  | succ fuel ih =>
    intro kvs0 r href hr
    obtain ⟨kvs, r', hwalk, href', hr'⟩ := hR r hr
    simp only [resolveReferences, href, hwalk]
    exact ih kvs r' href' hr'

theorem foldr_max_of_mem (cost : String → Nat) (l : List String) :
    ∀ r ∈ l, cost r ≤ (l.map cost).foldr max 0 := by
  induction l with
  | nil => intro r hr; cases hr
  | cons x xs ih =>
    intro r hr
    rcases List.mem_cons.mp hr with h1 | h2
    · subst h1
      exact le_max_left _ _
    · exact le_trans (ih r h2) (le_max_right _ _)

/-!
Claim C8.
-/

/-- C8: resolveReferences terminates on every document whose chain of
references descends along a cost measure — some fuel makes it succeed on
every fragment, acyclicity of the reference chains being witnessed by
the measure — and does not terminate on a circular reference chain
reachable from the fragment: on a looping reference set every fuel
yields no result, which is the fuel rendering of divergence of the
unguarded source recursion. -/
theorem resolveReferences_termination :
    (∀ (doc : Json) (cost : String → Nat) (S : Nat),
      (∀ (r : String) (t : Json), walkSegments doc (refSegments r) = some t →
        1 ≤ cost r ∧ sizeJ t ≤ S ∧ ∀ r' ∈ refsOf t, cost r' < cost r) →
      ∀ v : Json, ∃ fuel, (resolveReferences fuel doc v).isSome = true) ∧
    (∀ (doc : Json) (R : List String),
      (∀ r ∈ R, ∃ kvs r', walkSegments doc (refSegments r) = some (Json.obj kvs) ∧
        jGetL kvs "$ref" = some (Json.str r') ∧ r' ∈ R) →
      ∀ (kvs0 : List (String × Json)) (r : String),
        jGetL kvs0 "$ref" = some (Json.str r) → r ∈ R →
        ∀ fuel, resolveReferences fuel doc (Json.obj kvs0) = none) := by
  constructor
  · intro doc cost S hdoc v
    refine ⟨sizeJ v + ((refsOf v).map cost).foldr max 0 * (S + 1), ?_⟩
    exact resolveReferences_isSome doc cost S hdoc _ v
      (((refsOf v).map cost).foldr max 0)
      (fun r hr => foldr_max_of_mem cost (refsOf v) r hr)
      (le_refl _)
  · intro doc R hR kvs0 r href hr fuel
    exact resolveReferences_cycle_none doc R hR fuel kvs0 r href hr

/-- A reference-free document for the terminating half. -/
def docC8w : Json := Json.obj [("a", Json.str "b")]

/-- A document with a self-referential schema. -/
def docC8c : Json := Json.obj [("a", Json.obj [("$ref", Json.str "#/a")])]

/-- Witness for C8: on the reference-free document some fuel resolves
the fragment, and on the self-referential document every fuel — here
instantiated at seven — yields no result. -/
theorem resolveReferences_termination_witness :
    (∃ fuel, (resolveReferences fuel docC8w
      (Json.obj [("x", Json.obj [("type", Json.str "string")])])).isSome = true) ∧
    resolveReferences 7 docC8c (Json.obj [("$ref", Json.str "#/a")]) = none := by
  constructor
  · refine resolveReferences_termination.1 docC8w (fun _ => 1) (sizeJ docC8w) ?_ _
    intro r t hwalk
    obtain ⟨hrefs, hsize⟩ := walkSegments_sub (refSegments r) docC8w t hwalk
    refine ⟨le_refl 1, hsize, ?_⟩
    intro r' hr'
    have : r' ∈ refsOf docC8w := hrefs r' hr'
    simp [docC8w, refsOf, refsProps] at this
  · refine resolveReferences_termination.2 docC8c ["#/a"] ?_
      [("$ref", Json.str "#/a")] "#/a" rfl (List.mem_singleton.mpr rfl) 7
    intro r hrm
    rw [List.mem_singleton.mp hrm]
    exact ⟨[("$ref", Json.str "#/a")], "#/a", rfl, rfl, List.mem_singleton.mpr rfl⟩
